import Mathlib

/-!
Verification development for the gaiaif repository (FOV geometry engine in
gaiaif_util.py and the streaming magnitude merge in fov_cmd.py).

The Python code is shallowly embedded over the real numbers: numpy/spiceypy
vector operations become operations on a concrete 3-vector type, Python
floats become real numbers, and Python assertions become Except results.
Database rows carry rational numbers (the values read from SQLite), which
coerce into the real-valued geometry.
-/

noncomputable section

open Real

namespace Gaiaif

/-! ### Constants (gaiaif_util.py, module header)

dpr and rpd are the SPICE degree/radian conversion factors, rpmas is
radians per milliarcsecond, aupkm is astronomical units per kilometer and
recip_clight is the reciprocal of the speed of light in km/s. -/

def dpr : ℝ := 180 / π

def rpd : ℝ := π / 180

def rpmas : ℝ := rpd / 3600e3

def aupkm : ℝ := 1 / 149597870.7

def clight : ℝ := 299792.458

def recip_clight : ℝ := 1 / clight

/-! ### Vector and matrix primitives (spiceypy calls used by the source) -/

@[ext]
structure Vec3 where
  x : ℝ
  y : ℝ
  z : ℝ

def vpack (x y z : ℝ) : Vec3 := ⟨x, y, z⟩

def vadd (a b : Vec3) : Vec3 := ⟨a.x + b.x, a.y + b.y, a.z + b.z⟩

def vsub (a b : Vec3) : Vec3 := ⟨a.x - b.x, a.y - b.y, a.z - b.z⟩

def vscl (k : ℝ) (v : Vec3) : Vec3 := ⟨k * v.x, k * v.y, k * v.z⟩

def vminus (v : Vec3) : Vec3 := ⟨-v.x, -v.y, -v.z⟩

def vdot (a b : Vec3) : ℝ := a.x * b.x + a.y * b.y + a.z * b.z

def vnorm (v : Vec3) : ℝ := Real.sqrt (vdot v v)

/-- SPICE vhat: the unit vector along v (the zero vector maps to itself,
matching SPICE, since in Lean 1/0 = 0). -/
def vhat (v : Vec3) : Vec3 := vscl (1 / vnorm v) v

def vcrss (a b : Vec3) : Vec3 :=
  ⟨a.y * b.z - a.z * b.y, a.z * b.x - a.x * b.z, a.x * b.y - a.y * b.x⟩

def ucrss (a b : Vec3) : Vec3 := vhat (vcrss a b)

def vlcom (k1 : ℝ) (v1 : Vec3) (k2 : ℝ) (v2 : Vec3) : Vec3 :=
  vadd (vscl k1 v1) (vscl k2 v2)

def vlcom3 (k1 : ℝ) (v1 : Vec3) (k2 : ℝ) (v2 : Vec3) (k3 : ℝ) (v3 : Vec3) : Vec3 :=
  vadd (vadd (vscl k1 v1) (vscl k2 v2)) (vscl k3 v3)

/-- Matrix as three rows. -/
structure Mtx3 where
  r1 : Vec3
  r2 : Vec3
  r3 : Vec3

def mxv (m : Mtx3) (v : Vec3) : Vec3 := ⟨vdot m.r1 v, vdot m.r2 v, vdot m.r3 v⟩

def mcol1 (m : Mtx3) : Vec3 := ⟨m.r1.x, m.r2.x, m.r3.x⟩

def mcol2 (m : Mtx3) : Vec3 := ⟨m.r1.y, m.r2.y, m.r3.y⟩

def mcol3 (m : Mtx3) : Vec3 := ⟨m.r1.z, m.r2.z, m.r3.z⟩

def mxm (a b : Mtx3) : Mtx3 :=
  ⟨⟨vdot a.r1 (mcol1 b), vdot a.r1 (mcol2 b), vdot a.r1 (mcol3 b)⟩
  ,⟨vdot a.r2 (mcol1 b), vdot a.r2 (mcol2 b), vdot a.r2 (mcol3 b)⟩
  ,⟨vdot a.r3 (mcol1 b), vdot a.r3 (mcol2 b), vdot a.r3 (mcol3 b)⟩⟩

/-- SPICE radrec(r, ra, dec): rectangular coordinates from range,
right ascension and declination (angles in radians). -/
def radrec (r ra dec : ℝ) : Vec3 :=
  ⟨r * Real.cos dec * Real.cos ra, r * Real.cos dec * Real.sin ra, r * Real.sin dec⟩

/-- Two-argument arctangent with range (-pi, pi]. -/
def atan2 (y x : ℝ) : ℝ :=
  if 0 < x then Real.arctan (y / x)
  else if x < 0 then
    (if 0 ≤ y then Real.arctan (y / x) + π else Real.arctan (y / x) - π)
  else
    (if 0 < y then π / 2 else if y < 0 then -(π / 2) else 0)

/-- Right ascension (radians, in [0, 2pi)) of SPICE recrad. -/
def recradRA (v : Vec3) : ℝ :=
  let a := atan2 v.y v.x
  if a < 0 then a + 2 * π else a

/-- Declination (radians, in [-pi/2, pi/2]) of SPICE recrad. -/
def recradDec (v : Vec3) : ℝ := Real.arcsin (v.z / vnorm v)

/-- SPICE twovec(axdef, 3, plndef, 1): the frame rotation matrix whose
third row is the unit vector along axdef and whose first row is the unit
vector along the component of plndef orthogonal to axdef. -/
def twovec31 (axdef plndef : Vec3) : Mtx3 :=
  let r3 := vhat axdef
  let r1 := vhat (vsub plndef (vscl (vdot r3 plndef) r3))
  ⟨r1, vcrss r3 r1, r3⟩

/-- SPICE rotate(theta, 3): frame rotation by theta about the +Z axis. -/
def rotate3 (theta : ℝ) : Mtx3 :=
  ⟨⟨Real.cos theta, Real.sin theta, 0⟩
  ,⟨-Real.sin theta, Real.cos theta, 0⟩
  ,⟨0, 0, 1⟩⟩

/-! ### Input data model

A vertex handed to the FOV constructor is either an (RA, Dec) pair in
degrees or a Cartesian 3-vector; an item of the fovraws sequence is
either such a vertex or a plain number (the cone half-angle). -/

inductive RawVertex where
  | angle (ra dec : ℝ)
  | vec (x y z : ℝ)

inductive FovRaw where
  | vert (v : RawVertex)
  | scalar (h : ℝ)

/-- gaiaif_util.parse_inertial: validate an (RA, Dec) vertex or normalize a
Cartesian vertex; returns (RA degrees, Dec degrees, unit vector).
A scalar item in vertex position is a type error in the source
(len of a float); here it is an error result. -/
def parse_inertial : FovRaw → Except String (ℝ × ℝ × Vec3)
  | .vert (.angle ra dec) =>
    if ra ≤ 360 ∧ ra ≥ 0 then
      if dec ≤ 90 ∧ dec ≥ -90 then
        .ok (ra, dec, radrec 1 (ra * rpd) (dec * rpd))
      else .error "Dec is out of range"
    else .error "RA is out of range"
  | .vert (.vec x y z) =>
    let uvxyz := vhat ⟨x, y, z⟩
    .ok (dpr * recradRA uvxyz, dpr * recradDec uvxyz, uvxyz)
  | .scalar _ => .error "vertex does not have 2 or 3 elements"

/-! ### FOV state

The Python FOV object carries per-type attributes; they are modelled as a
tagged payload.  radec_boxes is the list built by the constructor and
returned verbatim by get_radec_boxes. -/

structure RadecBox where
  ralo : ℝ
  rahi : ℝ
  declo : ℝ
  dechi : ℝ

inductive FovType where
  | circle
  | radecbox
  | polygon
deriving DecidableEq

inductive FovData where
  | circle (hangdeg hangrad min_cosine : ℝ) (uv_cone_axis : Vec3)
  | radecbox
  | polygon (uvavg : Vec3) (mtxtofov : Mtx3) (uvlclxyzs : List Vec3) (crossing_count : ℕ)

def FovData.ftype : FovData → FovType
  | .circle _ _ _ _ => .circle
  | .radecbox => .radecbox
  | .polygon _ _ _ _ => .polygon

structure FOVState where
  radecdegs : List (ℝ × ℝ)
  uvfovxyzs : List Vec3
  radec_boxes : List RadecBox
  obs_pos : Option Vec3
  obs_vel : Option Vec3
  obs_year : Option ℝ
  data : FovData

def FOVState.fovtype (f : FOVState) : FovType := f.data.ftype

/-- FOV.get_radec_boxes returns a copy of .radec_boxes. -/
def FOVState.get_radec_boxes (f : FOVState) : List RadecBox := f.radec_boxes

/-- FOV.rotate_to_local (the matrix is the .mtxtofov attribute, present
only on polygon FOVs). -/
def rotate_to_local (m : Mtx3) (v : Vec3) : Vec3 := mxv m v

/-! ### FOVSIDE (one side of a polygonal FOV on the plane Z=1) -/

structure FOVSIDE where
  xhi : ℝ
  yhi : ℝ
  ylo : ℝ
  m : ℝ
  b : ℝ

def mkFOVSIDE (v0 v1 : Vec3) : FOVSIDE :=
  let m := (v1.x - v0.x) / (v1.y - v0.y)
  { xhi := max v0.x v1.x,
    yhi := if v0.y > v1.y then v0.y else v1.y,
    ylo := if v0.y > v1.y then v1.y else v0.y,
    m := m,
    b := v0.x - v0.y * m }

/-- FOVSIDE.right_of: does this side lie to the right of (or pass over) v,
with the maximum y of the side excluded. -/
def FOVSIDE.right_of (s : FOVSIDE) (v : Vec3) : Bool :=
  if v.y < s.ylo then false
  else if v.y ≥ s.yhi then false
  else if v.x > s.xhi then false
  else if v.x > v.y * s.m + s.b then false
  else true

/-- Pair each element with the one before it, the first with the last
(the iteration pattern of FOV.setup_localxyzs). -/
def withPrev (xs : List Vec3) (dflt : Vec3) : List (Vec3 × Vec3) :=
  xs.zip (xs.getLastD dflt :: xs)

/-! ### FOV.is_convex

The dot-product scan of one candidate side: returns the updated
(onepos, oneneg) flags, or none when a dot product is exactly zero (the
source then sets convex = False and returns immediately). -/

def scanDots (norm : Vec3) : List Vec3 → Bool → Bool → Option (Bool × Bool)
  | [], onepos, oneneg => some (onepos, oneneg)
  | uv :: rest, onepos, oneneg =>
    let d := vdot norm uv
    if 0 < d then scanDots norm rest true oneneg
    else if d < 0 then scanDots norm rest onepos true
    else none

/-- The while-loop of FOV.is_convex.  uvlefts is popped from its end, so it
is carried here in reverse; uvuseds in the source is never extended, so the
scan runs over the remaining uvlefts only. -/
def convexLoop : List Vec3 → Vec3 → Bool → Bool → List Vec3 → Bool × List Vec3
  | [], _, onepos, oneneg, norms => (xor onepos oneneg, norms)
  | uv0' :: rest, uv0, onepos, oneneg, norms =>
    if oneneg ∧ onepos then (xor onepos oneneg, norms)
    else
      let uv1 := uv0
      let norm := ucrss uv0' uv1
      match scanDots norm rest.reverse onepos oneneg with
      | none => (false, norms)
      | some (op, ong) =>
        convexLoop rest uv0' op ong (norms ++ [if op then norm else vminus norm])

/-- FOV.is_convex as a pure function of the vertex unit vectors: returns
the convexity flag and the inwardsidenorms list built along the way. -/
def isConvexCore (uvs : List Vec3) : Bool × List Vec3 :=
  let d : Vec3 := ⟨0, 0, 0⟩
  let norm0 := ucrss (uvs.getLastD d) (uvs.headD d)
  match scanDots norm0 (uvs.drop 1).dropLast false false with
  | none => (false, [])
  | some (op, ong) =>
    let norms := [if op then norm0 else vminus norm0]
    match uvs.reverse with
    | [] => (xor op ong, norms)
    | uv0 :: revlefts => convexLoop revlefts uv0 op ong norms

/-! ### FOV.star_in_fov -/

/-- The correction block of FOV.star_in_fov (proper motion, then
parallax, then stellar aberration), exactly with the source's guard
conditions and renormalizations. -/
def corrected_uv (f : FOVState) (uvraw : Vec3)
    (parallax_maspau pmra_maspy pmdec_maspy : Option ℝ) : Vec3 :=
  let uv1 :=
    match f.obs_year, pmra_maspy, pmdec_maspy with
    | some oy, some pmra, some pmdec =>
      if pmra ≠ 0 ∨ pmdec ≠ 0 then
        let uveast := ucrss ⟨0, 0, 1⟩ uvraw
        let uvnorth := ucrss uvraw uveast
        vhat (vlcom3 (oy * rpmas * pmdec) uvnorth (oy * rpmas * pmra) uveast 1 uvraw)
      else uvraw
    | _, _, _ => uvraw
  let uv2 :=
    match f.obs_pos, parallax_maspau with
    | some op, some plx =>
      if plx ≠ 0 then vhat (vsub uv1 (vscl (aupkm * plx * rpmas) op)) else uv1
    | _, _ => uv1
  match f.obs_vel with
  | some ov => vhat (vadd uv2 (vscl recip_clight ov))
  | none => uv2

/-- Membership of an (RA, Dec) pair in a box, as tested by the
RA-Dec-box path of star_in_fov (four continue conditions). -/
def inRadecBox (ra dec : ℝ) (bx : RadecBox) : Bool :=
  decide (bx.ralo ≤ ra ∧ ra ≤ bx.rahi ∧ bx.declo ≤ dec ∧ dec ≤ bx.dechi)

/-- FOV.star_in_fov: returns the inside flag and the vector the source
returns as second value (None is modelled as Option.none). -/
def star_in_fov (f : FOVState) (vstar : RawVertex)
    (parallax_maspau pmra_maspy pmdec_maspy : Option ℝ) :
    Except String (Bool × Option Vec3) :=
  match f.data with
  | .radecbox =>
    match parse_inertial (.vert vstar) with
    | .error e => .error e
    | .ok (ra, dec, _) =>
      if f.radec_boxes.any (inRadecBox ra dec) then
        .ok (true, some (radrec 1 (rpd * ra) (rpd * dec)))
      else .ok (false, none)
  | .circle _ _ min_cosine ax =>
    match parse_inertial (.vert vstar) with
    | .error e => .error e
    | .ok (_, _, uvraw) =>
      let uvinertial := corrected_uv f uvraw parallax_maspau pmra_maspy pmdec_maspy
      .ok (decide (vdot uvinertial ax ≥ min_cosine), some uvinertial)
  | .polygon _ mtx uvlcl _ =>
    match parse_inertial (.vert vstar) with
    | .error e => .error e
    | .ok (_, _, uvraw) =>
      let uvinertial := corrected_uv f uvraw parallax_maspau pmra_maspy pmdec_maspy
      let cn := isConvexCore f.uvfovxyzs
      if cn.1 then
        if cn.2.any (fun n => decide (vdot uvinertial n < 0)) then .ok (false, some uvinertial)
        else .ok (true, some uvinertial)
      else
        let uvlocalstar := mxv mtx uvinertial
        if uvlocalstar.z < 1e-15 then .ok (false, some uvinertial)
        else
          let z1star := vscl (1 / uvlocalstar.z) uvlocalstar
          let localxyzs := uvlcl.map (fun v => vscl (1 / v.z) v)
          let fovsides := (withPrev localxyzs ⟨0, 0, 0⟩).map (fun p => mkFOVSIDE p.1 p.2)
          let count := (fovsides.filter (fun s => s.right_of z1star)).length
          .ok (decide (count % 2 = 1), some uvinertial)

/-! ### FOV.__init__, stage 1: parsing the fovraws sequence -/

structure ParseAcc where
  radecdegs : List (ℝ × ℝ)
  uvfovxyzs : List Vec3
  fovsum : Vec3
  fovtype : FovType
  cone : Option (ℝ × ℝ × ℝ × Vec3)

/-- Parse one vertex and push it onto the accumulator lists. -/
def parseStep (acc : ParseAcc) (item : FovRaw) : Except String ParseAcc :=
  match parse_inertial item with
  | .error e => .error e
  | .ok (ra, dec, uvxyz) =>
    .ok { acc with
          radecdegs := acc.radecdegs ++ [(ra, dec)],
          uvfovxyzs := acc.uvfovxyzs ++ [uvxyz],
          fovsum := vadd acc.fovsum uvxyz }

/-- The vertex loop of FOV.__init__: for the second of exactly two items, a
scalar makes a cone (checking the half-angle and then leaving the loop) and
a vertex makes an RA-Dec box; every other item is parsed as a vertex. -/
def parseLoop (L : ℕ) : List FovRaw → ParseAcc → Except String ParseAcc
  | [], acc => .ok acc
  | item :: rest, acc =>
    if acc.radecdegs.length = 1 ∧ L = 2 then
      match item with
      | .scalar h =>
        if h < 90 then
          if h > 0 then
            .ok { acc with
              fovtype := FovType.circle,
              cone := some (h, h * rpd, Real.cos (h * rpd), acc.uvfovxyzs.headD ⟨0, 0, 0⟩) }
          else .error "Cone half-angle is not greater than 0 degrees"
        else .error "Cone half-angle is not less than 90 degrees"
      | .vert _ =>
        match parseStep { acc with fovtype := FovType.radecbox } item with
        | .error e => .error e
        | .ok acc2 => parseLoop L rest acc2
    else
      match parseStep acc item with
      | .error e => .error e
      | .ok acc2 => parseLoop L rest acc2

/-! ### FOV.__init__, stage 2: the RA,Dec bounding boxes -/

/-- Box FOV: sorted corner longitudes and latitudes; one box when the
longitude span is under 180 degrees, otherwise two boxes split at the
seam.  A radecdegs list that is not a pair never reaches this stage. -/
def boxesRadecbox : List (ℝ × ℝ) → List RadecBox
  | [(ra0, dec0), (ra1, dec1)] =>
    let ralo := min ra0 ra1
    let rahi := max ra0 ra1
    let declo := min dec0 dec1
    let dechi := max dec0 dec1
    if rahi - ralo < 180 then [⟨ralo, rahi, declo, dechi⟩]
    else [⟨0, ralo, declo, dechi⟩, ⟨rahi, 360, declo, dechi⟩]
  | _ => []

/-- Cone FOV bounding boxes.  The source calls math.sqrt, which in the
reachable branch always receives a nonnegative argument (the declination
band excludes the poles there); Real.sqrt is total. -/
def boxesCircle (ra dec hangdeg hangrad : ℝ) : List RadecBox :=
  let fovdeclo := dec - hangdeg
  let fovdechi := dec + hangdeg
  if fovdeclo < -90 ∨ fovdechi > 90 then
    [⟨0, 360, max fovdeclo (-90), min fovdechi 90⟩]
  else
    let lohi :=
      if fovdeclo = -90 ∨ fovdechi = 90 then (ra - 90, ra + 90)
      else
        let tanhang := Real.tan hangrad
        let tandec := Real.tan (dec * rpd)
        let sinhang := Real.sin hangrad
        let cosdec := Real.cos (dec * rpd)
        let coshang := Real.cos hangrad
        let T := sinhang / Real.sqrt (1 - (tanhang * tandec) ^ 2)
        let deltara := dpr * Real.arctan (T / (cosdec * coshang))
        (ra - deltara, ra + deltara)
    let fovralo := if lohi.1 < 0 then lohi.1 + 360 else lohi.1
    let fovrahi := if lohi.2 > 360 then lohi.2 - 360 else lohi.2
    if fovralo ≤ fovrahi then [⟨fovralo, fovrahi, fovdeclo, fovdechi⟩]
    else [⟨0, fovrahi, fovdeclo, fovdechi⟩, ⟨fovralo, 360, fovdeclo, fovdechi⟩]

/-! ### FOV.__init__, stage 3: the polygon local frame -/

/-- Python list comparison on 3-vectors (the tie-break of the min call
that picks vother). -/
def vecLexLt (a b : Vec3) : Prop :=
  a.x < b.x ∨ (a.x = b.x ∧ (a.y < b.y ∨ (a.y = b.y ∧ a.z < b.z)))

instance (a b : Vec3) : Decidable (vecLexLt a b) := by
  unfold vecLexLt; infer_instance

/-- Python min over (dot, vector) pairs: lexicographic, first minimum kept. -/
def minPair : List (ℝ × Vec3) → (ℝ × Vec3) → (ℝ × Vec3)
  | [], best => best
  | p :: rest, best =>
    minPair rest (if p.1 < best.1 ∨ (p.1 = best.1 ∧ vecLexLt p.2 best.2) then p else best)

/-- The hemisphere check and Z-scaling loop that builds vtmps; the first
vertex that fails 0 < uvavg . v raises. -/
def hemiScale (uvavg : Vec3) (tmpmtx : Mtx3) : List Vec3 → Except String (List Vec3)
  | [] => .ok []
  | v :: rest =>
    if 0 < vdot uvavg v then
      match hemiScale uvavg tmpmtx rest with
      | .error e => .error e
      | .ok vs => .ok (vscl (1 / (mxv tmpmtx v).z) (mxv tmpmtx v) :: vs)
    else .error "All vertices are not in the same hemisphere"

/-- The azimuth loop (numpy.arctan of dy/dx against the running previous
vector; the source seeds the previous vector from vtmps). -/
def azimuthGo : List Vec3 → Vec3 → List ℝ
  | [], _ => []
  | v :: rest, vlast => Real.arctan ((v.y - vlast.y) / (v.x - vlast.x)) :: azimuthGo rest v

structure PolyFrame where
  uvavg : Vec3
  mtxtofov : Mtx3
  uvlclxyzs : List Vec3

/-- FOV.__init__ lines building .uvavg, .mtxtofov and .uvlclxyzs for a
polygonal FOV. -/
def polyFrame (uvfovxyzs : List Vec3) (fovsum : Vec3) : Except String PolyFrame :=
  let d : Vec3 := ⟨0, 0, 0⟩
  let uvavg := vhat fovsum
  let dotpairs := uvfovxyzs.map (fun v => (vdot uvavg v, v))
  let vother := (minPair (dotpairs.drop 1) (dotpairs.headD (0, d))).2
  let tmpmtx := twovec31 uvavg vother
  match hemiScale uvavg tmpmtx uvfovxyzs with
  | .error e => .error e
  | .ok vtmps =>
    let az := azimuthGo uvfovxyzs (vtmps.getLastD d)
    let azs := az.insertionSort (· ≤ ·)
    let az2 := azs ++ [azs.headD 0 + π]
    let daz := List.zipWith (fun hi lo => hi - lo) (az2.drop 1) az2
    let maxdaz := daz.foldl max (daz.headD 0)
    let imaxdaz := daz.indexOf maxdaz
    let meanaz := az2.getD imaxdaz 0 + maxdaz / 2
    let mtxtofov := mxm (rotate3 meanaz) tmpmtx
    .ok { uvavg := uvavg, mtxtofov := mtxtofov,
          uvlclxyzs := uvfovxyzs.map (mxv mtxtofov) }

/-! ### FOV.__init__, stage 4: polygon RA,Dec boxes -/

/-- A ((RA, Dec), xyz) pair as carried by the box-computation loops. -/
abbrev PolyPair : Type := (ℝ × ℝ) × Vec3

def dfltPair : PolyPair := ((0, 0), ⟨0, 0, 0⟩)

def PolyPair.ra (p : PolyPair) : ℝ := p.1.1

def PolyPair.dec (p : PolyPair) : ℝ := p.1.2

def PolyPair.xyz (p : PolyPair) : Vec3 := p.2

/-- Rotate a list by moving its head to its end (pairs.append(pairs.pop(0))). -/
def rotList {α : Type} : List α → List α
  | [] => []
  | a :: rest => rest ++ [a]

/-- The loop ensuring the last pair is off the Prime Meridian; the fuel is
the vertex count L, so the error fires exactly when the source assertion
pop_count < L does. -/
def popPM : ℕ → List PolyPair → Except String (List PolyPair)
  | 0, _ => .error "All vertices are on the Prime Meridian"
  | fuel + 1, pairs =>
    if (pairs.getLastD dfltPair).ra = 0 then popPM fuel (rotList pairs)
    else .ok pairs

structure CrossAcc where
  crossing_count : ℕ
  zero_count : ℕ
  lastra : ℝ

/-- One step of the Prime-Meridian crossing count. -/
def crossStep (acc : CrossAcc) (p : PolyPair) : CrossAcc :=
  let ra0 := p.ra
  let ra := if ra0 = 0 ∧ acc.lastra > 180 then 360 else ra0
  { crossing_count :=
      if 180 < |ra - acc.lastra| then acc.crossing_count + 1 else acc.crossing_count,
    zero_count := if ra0 = 0 then acc.zero_count + 1 else acc.zero_count,
    lastra := ra }

def countCross (pairs : List PolyPair) : CrossAcc :=
  pairs.foldl crossStep ⟨0, 0, (pairs.getLastD dfltPair).ra⟩

/-- Rotate the pairs until the predicate holds (the two while loops that
position the pairs list before the east/west split); the fuel bounds the
rotation count, which the source leaves implicit. -/
def rotUntil (p : List PolyPair → Bool) : ℕ → List PolyPair → List PolyPair
  | 0, pairs => pairs
  | fuel + 1, pairs => if p pairs then pairs else rotUntil p fuel (rotList pairs)

structure SplitAcc where
  east : List PolyPair
  west : List PolyPair
  iswest : Bool
  lastra : ℝ
  lastdec : ℝ
  lastxyz : Vec3

/-- One vertex of the east/west split of an even-crossing polygon. -/
def splitStep (acc : SplitAcc) (p : PolyPair) : SplitAcc :=
  let ra := p.ra
  let dec := p.dec
  let xyz := p.xyz
  if ra = 0 then
    if acc.lastra ≥ 180 then
      { acc with
        west := acc.west ++ [((360, dec), xyz)], iswest := true,
        lastra := 360, lastdec := dec, lastxyz := xyz }
    else
      { acc with
        east := acc.east ++ [p], iswest := false,
        lastra := ra, lastdec := dec, lastxyz := xyz }
  else if |acc.lastra - ra| ≥ 180 then
    let k1 := -xyz.y / (acc.lastxyz.y - xyz.y)
    let midxyz := vhat (vlcom (1 - k1) xyz k1 acc.lastxyz)
    let middec := dpr * recradDec midxyz
    let iswest := ra ≥ 180
    let west1 := acc.west ++ [((360, middec), midxyz)]
    let east1 := if ra > 0 ∧ ¬iswest then acc.east ++ [((0, middec), midxyz)] else acc.east
    if iswest then
      { east := east1, west := west1 ++ [p], iswest := true,
        lastra := ra, lastdec := dec, lastxyz := xyz }
    else
      { east := east1 ++ [p], west := west1, iswest := false,
        lastra := ra, lastdec := dec, lastxyz := xyz }
  else
    if acc.iswest then
      { acc with
        west := acc.west ++ [p], lastra := ra, lastdec := dec, lastxyz := xyz }
    else
      { acc with
        east := acc.east ++ [p], lastra := ra, lastdec := dec, lastxyz := xyz }

/-- The declination extremum of one polygon side (the lastdz/dz sign test
and the two vtoextremez passes).  The source wraps math.asin in try/except
against float rounding; Real.arcsin is total, so the except branch has no
separate model. -/
def decExtreme (lastxyz xyz : Vec3) (dec : ℝ) : ℝ × ℝ :=
  let sidenormal := vcrss lastxyz xyz
  let lastdz := (vcrss sidenormal lastxyz).z
  let dz := (vcrss sidenormal xyz).z
  if lastdz * dz < 0 then
    let equinox := vcrss ⟨0, 0, 1⟩ sidenormal
    let vte := ucrss sidenormal equinox
    let mindot := vdot lastxyz xyz
    if vdot lastxyz vte > mindot ∧ vdot xyz vte > mindot then
      let extremedec := dpr * Real.arcsin vte.z
      if extremedec > dec then (extremedec, dec)
      else if extremedec < dec then (dec, extremedec) else (dec, dec)
    else
      let vte2 := vminus vte
      if vdot lastxyz vte2 > mindot ∧ vdot xyz vte2 > mindot then
        let extremedec := dpr * Real.arcsin vte2.z
        if extremedec > dec then (extremedec, dec)
        else if extremedec < dec then (dec, extremedec) else (dec, dec)
      else (dec, dec)
  else (dec, dec)

structure BoxAcc where
  ralo : ℝ
  rahi : ℝ
  declo : ℝ
  dechi : ℝ
  lastxyz : Vec3

/-- One vertex of the polygon RA,Dec box loop.  The RA limits are updated
with the same if/elif pair as the source. -/
def boxStep (acc : BoxAcc) (p : PolyPair) : BoxAcc :=
  let ra := p.ra
  let lohi :=
    if ra > acc.rahi then (acc.ralo, ra)
    else if ra < acc.ralo then (ra, acc.rahi)
    else (acc.ralo, acc.rahi)
  let mm := decExtreme acc.lastxyz p.xyz p.dec
  { ralo := lohi.1, rahi := lohi.2,
    dechi := if mm.1 > acc.dechi then mm.1 else acc.dechi,
    declo := if mm.2 < acc.declo then mm.2 else acc.declo,
    lastxyz := p.xyz }

/-- The RA,Dec box of one sub-FOV, from its starting range. -/
def polyBox (subfov : List PolyPair) (r : RadecBox) : RadecBox :=
  let init : BoxAcc := ⟨r.ralo, r.rahi, r.declo, r.dechi, (subfov.getLastD dfltPair).xyz⟩
  let fin := subfov.foldl boxStep init
  ⟨fin.ralo, fin.rahi, fin.declo, fin.dechi⟩

/-- The box list of a polygonal FOV, after the crossing count: a single
sub-FOV for zero or odd crossings, an east/west split otherwise.  The
source pops sub-FOVs from the end of the list, so the west box precedes
the east box. -/
def polyBoxesOf (pairs : List PolyPair) (uvavg : Vec3) (cc zc : ℕ) : List RadecBox :=
  if cc = 0 ∨ cc % 2 = 1 then
    let r : RadecBox :=
      if cc = 0 then ⟨360, 0, 90, -90⟩
      else if 0 < vdot uvavg ⟨0, 0, 1⟩ then ⟨0, 360, 90, 90⟩ else ⟨0, 360, -90, -90⟩
    [polyBox pairs r]
  else
    let pairs2 :=
      if 0 < zc then
        rotUntil (fun ps => decide ((ps.headD dfltPair).ra = 0)) pairs.length pairs
      else
        rotUntil (fun ps => decide (|(ps.headD dfltPair).ra - (ps.getLastD dfltPair).ra| ≥ 180))
          pairs.length pairs
    let last := pairs2.getLastD dfltPair
    let sa := pairs2.foldl splitStep ⟨[], [], false, last.ra, last.dec, last.xyz⟩
    [polyBox sa.west ⟨360, 0, 90, -90⟩, polyBox sa.east ⟨360, 0, 90, -90⟩]

/-- Stage 4 wrapper: pair RA,Dec with vertices, run the Prime-Meridian
positioning loop, the crossing count and the box computation. -/
def boxesPolygon (radecdegs : List (ℝ × ℝ)) (uvfovxyzs : List Vec3) (uvavg : Vec3)
    (L : ℕ) : Except String (List RadecBox × ℕ) :=
  let pairs0 : List PolyPair := radecdegs.zip uvfovxyzs
  match popPM L pairs0 with
  | .error e => .error e
  | .ok pairs =>
    let ca := countCross pairs
    .ok (polyBoxesOf pairs uvavg ca.crossing_count ca.zero_count, ca.crossing_count)

/-- FOV.__init__: parse the raw FOV, then compute the per-type state and
bounding boxes. -/
def mkFOV (fovraws : List FovRaw) (obs_pos obs_vel : Option Vec3) (obs_year : Option ℝ) :
    Except String FOVState :=
  let L := fovraws.length
  if L ≤ 1 then .error "Too few vertices in FOV"
  else
    match parseLoop L fovraws ⟨[], [], ⟨0, 0, 0⟩, FovType.polygon, none⟩ with
    | .error e => .error e
    | .ok acc =>
      match acc.fovtype, acc.cone with
      | FovType.radecbox, _ =>
        .ok { radecdegs := acc.radecdegs, uvfovxyzs := acc.uvfovxyzs,
              radec_boxes := boxesRadecbox acc.radecdegs,
              obs_pos := obs_pos, obs_vel := obs_vel, obs_year := obs_year,
              data := .radecbox }
      | FovType.circle, some (hd, hr, mc, ax) =>
        let rd := acc.radecdegs.headD (0, 0)
        .ok { radecdegs := acc.radecdegs, uvfovxyzs := acc.uvfovxyzs,
              radec_boxes := boxesCircle rd.1 rd.2 hd hr,
              obs_pos := obs_pos, obs_vel := obs_vel, obs_year := obs_year,
              data := .circle hd hr mc ax }
      | FovType.circle, none => .error "internal: circle without cone data"
      | FovType.polygon, _ =>
        match polyFrame acc.uvfovxyzs acc.fovsum with
        | .error e => .error e
        | .ok fr =>
          match boxesPolygon acc.radecdegs acc.uvfovxyzs fr.uvavg L with
          | .error e => .error e
          | .ok (boxes, cc) =>
            .ok { radecdegs := acc.radecdegs, uvfovxyzs := acc.uvfovxyzs,
                  radec_boxes := boxes,
                  obs_pos := obs_pos, obs_vel := obs_vel, obs_year := obs_year,
                  data := .polygon fr.uvavg fr.mtxtofov fr.uvlclxyzs cc }

/-! ### fov_cmd.py: GAIASQL cursors and the gaiaif merge loop

A database row (the columns gaiaif uses: the magnitude column aliased to
mean_mag, ra, dec and - when the gaialight join is active - parallax and
proper motions; absent columns are Option.none, matching the None defaults
of minmag_row).  SQLite values are rationals. -/

structure GRow where
  mean_mag : ℚ
  ra : ℚ
  dec : ℚ
  parallax : Option ℚ
  pmra : Option ℚ
  pmdec : Option ℚ

/-- A star record appended to rtn_stars, with the corrected vector and
coordinates added by gaiaif. -/
structure StarOut where
  row : GRow
  uvstar_corrected : Vec3
  rastar_corrected : ℝ
  decstar_corrected : ℝ
  rastar_delta : ℝ
  decstar_delta : ℝ

def mkStarOut (r : GRow) (uvstar : Vec3) : StarOut :=
  let rastar := dpr * recradRA uvstar
  let decstar := dpr * recradDec uvstar
  { row := r, uvstar_corrected := uvstar,
    rastar_corrected := rastar, decstar_corrected := decstar,
    rastar_delta := rastar - (r.ra : ℝ), decstar_delta := decstar - (r.dec : ℝ) }

/-- A GAIASQL cursor: the rows the query has not yet delivered, the
buffered row (None once exhausted), the done flag, and how many times
close() - which also closes the database connection - has run.  count is
the row counter of the source. -/
structure GAIASQL where
  pending : List GRow
  row : Option GRow
  done : Bool
  closeCount : ℕ
  count : ℕ

/-- GAIASQL.close: drop the row, set done, close cursor and connection. -/
def GAIASQL.close (c : GAIASQL) : GAIASQL :=
  { c with row := none, done := true, closeCount := c.closeCount + 1 }

/-- GAIASQL.cursor_next: buffer the next row, or close at StopIteration.
The source asserts not self.done first; gaiaif only advances a cursor
whose buffered row is present, which is never a closed one. -/
def cursor_next (c : GAIASQL) : GAIASQL :=
  match c.pending with
  | [] => c.close
  | r :: rest => { c with pending := rest, row := some r, count := c.count + 1 }

/-- GAIASQL.__init__ ends by priming the first row with cursor_next. -/
def GAIASQL.init (rows : List GRow) : GAIASQL :=
  cursor_next { pending := rows, row := none, done := false, closeCount := 0, count := 0 }

/-- The rows a cursor can still deliver: the buffered one, then pending. -/
def availRows (c : GAIASQL) : List GRow := c.row.toList ++ c.pending

def cursorsMeasure (cs : List GAIASQL) : ℕ :=
  (cs.map (fun c => (availRows c).length)).sum

/-- The minimum-magnitude selection loop of gaiaif: scan get_row() of every
cursor in order, skip empty ones, and replace the current best only when
the new magnitude is strictly smaller. -/
def pickMinGo : List GAIASQL → ℕ → Option (ℕ × GAIASQL × GRow) → Option (ℕ × GAIASQL × GRow)
  | [], _, best => best
  | c :: rest, i, best =>
    match c.row with
    | none => pickMinGo rest (i + 1) best
    | some r =>
      match best with
      | none => pickMinGo rest (i + 1) (some (i, c, r))
      | some (j, cb, rb) =>
        if r.mean_mag ≥ rb.mean_mag then pickMinGo rest (i + 1) (some (j, cb, rb))
        else pickMinGo rest (i + 1) (some (i, c, r))

def pickMin (cs : List GAIASQL) : Option (ℕ × GAIASQL × GRow) := pickMinGo cs 0 none

theorem pickMinGo_none {c : GAIASQL} (h : c.row = none) (rest : List GAIASQL) (i : ℕ)
    (best : Option (ℕ × GAIASQL × GRow)) :
    pickMinGo (c :: rest) i best = pickMinGo rest (i + 1) best := by
  simp only [pickMinGo, h]

theorem pickMinGo_some_none {c : GAIASQL} {r : GRow} (h : c.row = some r)
    (rest : List GAIASQL) (i : ℕ) :
    pickMinGo (c :: rest) i none = pickMinGo rest (i + 1) (some (i, c, r)) := by
  simp only [pickMinGo, h]

theorem pickMinGo_some_some {c : GAIASQL} {r : GRow} (h : c.row = some r)
    (rest : List GAIASQL) (i j : ℕ) (cb : GAIASQL) (rb : GRow) :
    pickMinGo (c :: rest) i (some (j, cb, rb)) =
      if r.mean_mag ≥ rb.mean_mag then pickMinGo rest (i + 1) (some (j, cb, rb))
      else pickMinGo rest (i + 1) (some (i, c, r)) := by
  simp only [pickMinGo, h]

theorem pickMinGo_spec (cs : List GAIASQL) :
    ∀ (i : ℕ) (best : Option (ℕ × GAIASQL × GRow)) (j : ℕ) (c : GAIASQL) (r : GRow),
      pickMinGo cs i best = some (j, c, r) →
      best = some (j, c, r) ∨ (i ≤ j ∧ cs.get? (j - i) = some c ∧ c.row = some r) := by
  induction cs with
  | nil =>
    intro i best j c r h
    simp only [pickMinGo] at h
    exact Or.inl h
  | cons c0 rest ih =>
    intro i best j c r h
    cases hrow : c0.row with
    | none =>
      rw [pickMinGo_none hrow] at h
      rcases ih _ _ _ _ _ h with h1 | ⟨hij, hget, hr⟩
      · exact Or.inl h1
      · refine Or.inr ⟨by omega, ?_, hr⟩
        rw [show j - i = (j - (i + 1)) + 1 by omega]
        simpa using hget
    | some r0 =>
      cases best with
      | none =>
        rw [pickMinGo_some_none hrow] at h
        rcases ih _ _ _ _ _ h with h1 | ⟨hij, hget, hr⟩
        · simp only [Option.some.injEq, Prod.mk.injEq] at h1
          obtain ⟨h2, h3, h4⟩ := h1
          subst h2; subst h3; subst h4
          exact Or.inr ⟨le_refl _, by simp, hrow⟩
        · refine Or.inr ⟨by omega, ?_, hr⟩
          rw [show j - i = (j - (i + 1)) + 1 by omega]
          simpa using hget
      | some b =>
        obtain ⟨j0, cb, rb⟩ := b
        rw [pickMinGo_some_some hrow] at h
        by_cases hge : r0.mean_mag ≥ rb.mean_mag
        · rw [if_pos hge] at h
          rcases ih _ _ _ _ _ h with h1 | ⟨hij, hget, hr⟩
          · exact Or.inl h1
          · refine Or.inr ⟨by omega, ?_, hr⟩
            rw [show j - i = (j - (i + 1)) + 1 by omega]
            simpa using hget
        · rw [if_neg hge] at h
          rcases ih _ _ _ _ _ h with h1 | ⟨hij, hget, hr⟩
          · simp only [Option.some.injEq, Prod.mk.injEq] at h1
            obtain ⟨h2, h3, h4⟩ := h1
            subst h2; subst h3; subst h4
            exact Or.inr ⟨le_refl _, by simp, hrow⟩
          · refine Or.inr ⟨by omega, ?_, hr⟩
            rw [show j - i = (j - (i + 1)) + 1 by omega]
            simpa using hget

theorem pickMin_get {cs : List GAIASQL} {j : ℕ} {c : GAIASQL} {r : GRow}
    (h : pickMin cs = some (j, c, r)) :
    cs.get? j = some c ∧ c.row = some r := by
  rcases pickMinGo_spec cs 0 none j c r h with h1 | ⟨_, hget, hr⟩
  · cases h1
  · exact ⟨by simpa using hget, hr⟩

theorem availRows_cursor_next {c : GAIASQL} {r : GRow} (h : c.row = some r) :
    (availRows (cursor_next c)).length + 1 = (availRows c).length := by
  cases hp : c.pending with
  | nil => simp [availRows, cursor_next, hp, GAIASQL.close, h]
  | cons a rest => simp [availRows, cursor_next, hp, h]

theorem cursorsMeasure_set_lt :
    ∀ (cs : List GAIASQL) (j : ℕ) {c c' : GAIASQL},
      cs.get? j = some c → (availRows c').length < (availRows c).length →
      cursorsMeasure (cs.set j c') < cursorsMeasure cs
  | [], j, c, c', hget, _ => by simp at hget
  | a :: rest, 0, c, c', hget, hlt => by
    simp only [List.get?_cons_zero, Option.some.injEq] at hget
    subst hget
    simp only [List.set, cursorsMeasure, List.map_cons, List.sum_cons]
    exact Nat.add_lt_add_right hlt _
  | a :: rest, n + 1, c, c', hget, hlt => by
    simp only [List.get?_cons_succ] at hget
    have h2 := cursorsMeasure_set_lt rest n hget hlt
    simp only [List.set, cursorsMeasure, List.map_cons, List.sum_cons]
    exact Nat.add_lt_add_left h2 _

/-- The merge loop of gaiaif (fov_cmd.py lines 179-216): repeat while
fewer than rtn_limit stars are kept; pick the minimum-magnitude buffered
row, test it against the FOV, keep it when inside, and advance only the
selected cursor. -/
def gaiaifLoop (fov : FOVState) (limit : ℕ) (cursors : List GAIASQL) (acc : List StarOut) :
    Except String (List StarOut × List GAIASQL) :=
  if acc.length < limit then
    match hpm : pickMin cursors with
    | none => .ok (acc, cursors)
    | some (j, c, r) =>
      match star_in_fov fov (.angle (r.ra : ℝ) (r.dec : ℝ))
          (r.parallax.map (fun q => (q : ℝ))) (r.pmra.map (fun q => (q : ℝ)))
          (r.pmdec.map (fun q => (q : ℝ))) with
      | .error e => .error e
      | .ok (inside, uvopt) =>
        if inside then
          match uvopt with
          | some uv =>
            gaiaifLoop fov limit (cursors.set j (cursor_next c)) (acc ++ [mkStarOut r uv])
          | none => .error "star_in_fov returned no vector"
        else gaiaifLoop fov limit (cursors.set j (cursor_next c)) acc
  else .ok (acc, cursors)
termination_by cursorsMeasure cursors
decreasing_by
  all_goals
    obtain ⟨hk1, hk2⟩ := pickMin_get hpm
    have h3 := availRows_cursor_next hk2
    exact cursorsMeasure_set_lt _ _ hk1 (by omega)

/-- gaiaif: open one cursor per RA,Dec box stream and run the merge with
an empty rtn_stars list. -/
def gaiaifMerge (fov : FOVState) (streams : List (List GRow)) (limit : ℕ) :
    Except String (List StarOut × List GAIASQL) :=
  gaiaifLoop fov limit (streams.map GAIASQL.init) []

/-! ### Basic lemmas about the vector primitives -/

theorem vdot_self_nonneg (v : Vec3) : 0 ≤ vdot v v := by
  simp only [vdot]
  nlinarith [mul_self_nonneg v.x, mul_self_nonneg v.y, mul_self_nonneg v.z]

theorem vnorm_nonneg (v : Vec3) : 0 ≤ vnorm v := Real.sqrt_nonneg _

theorem vnorm_sq (v : Vec3) : vnorm v * vnorm v = vdot v v :=
  Real.mul_self_sqrt (vdot_self_nonneg v)

theorem vdot_radrec_self (ra dec : ℝ) : vdot (radrec 1 ra dec) (radrec 1 ra dec) = 1 := by
  simp only [radrec, vdot]
  have h1 := Real.sin_sq_add_cos_sq ra
  have h2 := Real.sin_sq_add_cos_sq dec
  nlinarith [h1, h2]

theorem vnorm_radrec (ra dec : ℝ) : vnorm (radrec 1 ra dec) = 1 := by
  rw [vnorm, vdot_radrec_self]
  exact Real.sqrt_one

theorem vhat_of_vnorm_one {v : Vec3} (h : vnorm v = 1) : vhat v = v := by
  simp [vhat, h, vscl]

theorem vhat_radrec (ra dec : ℝ) : vhat (radrec 1 ra dec) = radrec 1 ra dec :=
  vhat_of_vnorm_one (vnorm_radrec ra dec)

/-- The squared norm of vhat v is 0 or 1; consequently vhat is idempotent. -/
theorem vnorm_vhat (v : Vec3) : vnorm (vhat v) = 0 ∨ vnorm (vhat v) = 1 := by
  by_cases h : vnorm v = 0
  · left
    have hz : vdot v v = 0 := by
      have := vnorm_sq v; rw [h] at this; linarith
    simp only [vhat, vnorm, vscl, vdot] at *
    have hx : v.x * v.x + v.y * v.y + v.z * v.z = 0 := hz
    have h1 : v.x = 0 := by nlinarith [sq_nonneg v.x, sq_nonneg v.y, sq_nonneg v.z]
    have h2 : v.y = 0 := by nlinarith [sq_nonneg v.x, sq_nonneg v.y, sq_nonneg v.z]
    have h3 : v.z = 0 := by nlinarith [sq_nonneg v.x, sq_nonneg v.y, sq_nonneg v.z]
    simp [h1, h2, h3]
  · right
    have hpos : 0 < vnorm v := lt_of_le_of_ne (vnorm_nonneg v) (Ne.symm h)
    have : vdot (vhat v) (vhat v) = 1 := by
      simp only [vhat, vscl, vdot]
      have hv : vnorm v * vnorm v = v.x * v.x + v.y * v.y + v.z * v.z := vnorm_sq v
      field_simp
      nlinarith [hv]
    rw [vnorm, this, Real.sqrt_one]

theorem vhat_vhat (v : Vec3) : vhat (vhat v) = vhat v := by
  rcases vnorm_vhat v with h | h
  · simp [vhat, h]
    rcases eq_or_ne (vnorm v) 0 with h0 | h0
    · simp [vhat, h0, vscl]
    · exfalso
      have hpos : 0 < vnorm v := lt_of_le_of_ne (vnorm_nonneg v) (Ne.symm h0)
      have h1 : vdot (vhat v) (vhat v) = 1 := by
        simp only [vhat, vscl, vdot]
        have hv : vnorm v * vnorm v = v.x * v.x + v.y * v.y + v.z * v.z := vnorm_sq v
        field_simp
        nlinarith [hv]
      have h2 : vnorm (vhat v) = 1 := by rw [vnorm, h1, Real.sqrt_one]
      rw [h] at h2; norm_num at h2
  · exact vhat_of_vnorm_one h

/-- Helper: parse_inertial accepts an in-range (RA, Dec) pair. -/
theorem parse_inertial_ok (ra dec : ℝ) (h0 : ra ≤ 360) (h0' : 0 ≤ ra)
    (hd : dec ≤ 90) (hd' : -90 ≤ dec) :
    parse_inertial (.vert (.angle ra dec)) = .ok (ra, dec, radrec 1 (ra * rpd) (dec * rpd)) := by
  simp [parse_inertial, h0, h0', hd, hd']

/-- Helper: the two-corner constructor state of an RA,Dec-box FOV. -/
theorem mkFOV_box_eq (ra0 dec0 ra1 dec1 : ℝ) (op ov : Option Vec3) (oy : Option ℝ)
    (h0 : ra0 ≤ 360) (h0' : 0 ≤ ra0) (hd0 : dec0 ≤ 90) (hd0' : -90 ≤ dec0)
    (h1 : ra1 ≤ 360) (h1' : 0 ≤ ra1) (hd1 : dec1 ≤ 90) (hd1' : -90 ≤ dec1) :
    mkFOV [.vert (.angle ra0 dec0), .vert (.angle ra1 dec1)] op ov oy =
      .ok { radecdegs := [(ra0, dec0), (ra1, dec1)]
          , uvfovxyzs := [radrec 1 (ra0 * rpd) (dec0 * rpd), radrec 1 (ra1 * rpd) (dec1 * rpd)]
          , radec_boxes := boxesRadecbox [(ra0, dec0), (ra1, dec1)]
          , obs_pos := op, obs_vel := ov, obs_year := oy
          , data := .radecbox } := by
  simp [mkFOV, parseLoop, parseStep,
    parse_inertial_ok _ _ h0 h0' hd0 hd0', parse_inertial_ok _ _ h1 h1' hd1 hd1']

theorem boxesRadecbox_pair (ra0 dec0 ra1 dec1 : ℝ) :
    boxesRadecbox [(ra0, dec0), (ra1, dec1)] =
      if max ra0 ra1 - min ra0 ra1 < 180 then
        [⟨min ra0 ra1, max ra0 ra1, min dec0 dec1, max dec0 dec1⟩]
      else [⟨0, min ra0 ra1, min dec0 dec1, max dec0 dec1⟩,
            ⟨max ra0 ra1, 360, min dec0 dec1, max dec0 dec1⟩] := rfl

/-- C9: parse_inertial accepts longitude exactly 360.0 (its own error
message documents the range as half-open).  The claim says such an input
must be rejected; the code admits it. -/
theorem parse_inertial_accepts_ra360 :
    parse_inertial (.vert (.angle 360 0)) =
      .ok (360, 0, radrec 1 (360 * rpd) (0 * rpd)) := by
  apply parse_inertial_ok <;> norm_num

/-- C7: for a Box FOV from two in-range corners, with ralo/rahi the sorted
corner longitudes and declo/dechi the sorted latitudes, the constructor
emits one box [ralo, rahi, declo, dechi] when rahi - ralo < 180, and the
two boxes [0, ralo, declo, dechi] and [rahi, 360, declo, dechi] otherwise. -/
theorem C7_box_boxes (ra0 dec0 ra1 dec1 : ℝ) (op ov : Option Vec3) (oy : Option ℝ)
    (h0 : ra0 ≤ 360) (h0' : 0 ≤ ra0) (hd0 : dec0 ≤ 90) (hd0' : -90 ≤ dec0)
    (h1 : ra1 ≤ 360) (h1' : 0 ≤ ra1) (hd1 : dec1 ≤ 90) (hd1' : -90 ≤ dec1)
    (f : FOVState)
    (hok : mkFOV [.vert (.angle ra0 dec0), .vert (.angle ra1 dec1)] op ov oy = .ok f) :
    f.get_radec_boxes =
      if max ra0 ra1 - min ra0 ra1 < 180 then
        [⟨min ra0 ra1, max ra0 ra1, min dec0 dec1, max dec0 dec1⟩]
      else [⟨0, min ra0 ra1, min dec0 dec1, max dec0 dec1⟩,
            ⟨max ra0 ra1, 360, min dec0 dec1, max dec0 dec1⟩] := by
  rw [mkFOV_box_eq _ _ _ _ op ov oy h0 h0' hd0 hd0' h1 h1' hd1 hd1', Except.ok.injEq] at hok
  subst hok
  rw [FOVState.get_radec_boxes, boxesRadecbox_pair]

/-- C7 witness: corners (315, 89.2) and (15, 89.8) give exactly the boxes
[0, 15, 89.2, 89.8] and [315, 360, 89.2, 89.8]. -/
theorem C7_box_boxes_witness :
    (mkFOV [.vert (.angle 315 89.2), .vert (.angle 15 89.8)] none none none).map
        FOVState.get_radec_boxes =
      .ok [⟨0, 15, 89.2, 89.8⟩, ⟨315, 360, 89.2, 89.8⟩] := by
  have hok := mkFOV_box_eq 315 89.2 15 89.8
    none none none (by norm_num) (by norm_num) (by norm_num) (by norm_num)
    (by norm_num) (by norm_num) (by norm_num) (by norm_num)
  rw [hok, Except.map]
  have hbx := C7_box_boxes 315 89.2 15 89.8
    none none none (by norm_num) (by norm_num) (by norm_num) (by norm_num)
    (by norm_num) (by norm_num) (by norm_num) (by norm_num) _ hok
  rw [show (max (315 : ℝ) 15) = 315 by norm_num, show (min (315 : ℝ) 15) = 15 by norm_num,
    show (max (89.2 : ℝ) 89.8) = 89.8 by norm_num, show (min (89.2 : ℝ) 89.8) = 89.2 by norm_num,
    if_neg (by norm_num)] at hbx
  simpa [FOVState.get_radec_boxes] using hbx

/-! ### The CorrectionPipeline of spec section 4.3 (spec-side definition)

Written from the wording of the spec: proper motion displaces along the
local east/north tangent basis and renormalizes; parallax subtracts the
parallax angle times the observer position in catalog distance units and
renormalizes; aberration adds velocity over the speed of light and
renormalizes; each step is skipped exactly under the stated conditions. -/

def specCorrectionPipeline (obs_pos obs_vel : Option Vec3) (obs_year : Option ℝ)
    (u : Vec3) (parallax pmra pmdec : Option ℝ) : Vec3 :=
  let u1 :=
    match obs_year, pmra, pmdec with
    | some yr, some pra, some pdec =>
      if pra ≠ 0 ∨ pdec ≠ 0 then
        let east := ucrss ⟨0, 0, 1⟩ u
        let north := ucrss u east
        vhat (vadd u (vadd (vscl (yr * rpmas * pdec) north) (vscl (yr * rpmas * pra) east)))
      else u
    | _, _, _ => u
  let u2 :=
    match obs_pos, parallax with
    | some pos, some plx =>
      if plx ≠ 0 then vhat (vsub u1 (vscl (plx * rpmas * aupkm) pos)) else u1
    | _, _ => u1
  match obs_vel with
  | some vel => vhat (vadd u2 (vscl recip_clight vel))
  | none => u2

/-- The inline correction block of star_in_fov computes exactly the
spec CorrectionPipeline. -/
theorem corrected_uv_eq_spec (f : FOVState) (u : Vec3) (p pm pd : Option ℝ) :
    corrected_uv f u p pm pd =
      specCorrectionPipeline f.obs_pos f.obs_vel f.obs_year u p pm pd := by
  have hl : ∀ (a b : ℝ) (n e v : Vec3),
      vlcom3 a n b e 1 v = vadd v (vadd (vscl a n) (vscl b e)) := by
    intro a b n e v; ext <;> simp only [vlcom3, vadd, vscl] <;> ring
  have hs : ∀ (plx : ℝ) (pos : Vec3),
      vscl (aupkm * plx * rpmas) pos = vscl (plx * rpmas * aupkm) pos := by
    intro plx pos; ext <;> simp only [vscl] <;> ring
  unfold corrected_uv specCorrectionPipeline
  cases f.obs_year <;> cases pm <;> cases pd <;> cases f.obs_pos <;> cases p <;>
    cases f.obs_vel <;> simp only [hl, hs]

/-- parse_inertial always returns a vhat-fixed vector. -/
theorem parse_vhat_fix {v : RawVertex} {ra dec : ℝ} {u : Vec3}
    (h : parse_inertial (.vert v) = .ok (ra, dec, u)) : vhat u = u := by
  cases v with
  | angle a d =>
    simp only [parse_inertial] at h
    split at h
    · split at h
      · simp only [Except.ok.injEq, Prod.mk.injEq] at h
        obtain ⟨-, -, h3⟩ := h
        rw [← h3]
        exact vhat_radrec _ _
      · cases h
    · cases h
  | vec x y z =>
    simp only [parse_inertial, Except.ok.injEq, Prod.mk.injEq] at h
    obtain ⟨-, -, h3⟩ := h
    rw [← h3]
    exact vhat_vhat _

/-- The spec pipeline sends vhat-fixed vectors to vhat-fixed vectors. -/
theorem spec_pipeline_vhat_fix (obs_pos obs_vel : Option Vec3) (obs_year : Option ℝ)
    {u : Vec3} (hu : vhat u = u) (p pm pd : Option ℝ) :
    vhat (specCorrectionPipeline obs_pos obs_vel obs_year u p pm pd) =
      specCorrectionPipeline obs_pos obs_vel obs_year u p pm pd := by
  unfold specCorrectionPipeline
  cases obs_year <;> cases pm <;> cases pd <;> cases obs_pos <;> cases p <;> cases obs_vel <;>
    dsimp only <;> (try split_ifs) <;> first | exact hu | exact vhat_vhat _

/-- The FOV with its correction context removed (used to state that
corrections happen before, and independently of, the membership test). -/
def stripObs (f : FOVState) : FOVState :=
  { f with obs_pos := none, obs_vel := none, obs_year := none }

theorem stripObs_data (f : FOVState) : (stripObs f).data = f.data := rfl

/-- C6 (amended): for cone and polygon FOVs, star_in_fov equals the
membership test of the correction-free FOV applied to the vector produced
by the spec CorrectionPipeline (corrections run first, in the fixed order
with the stated skip conditions, renormalizing), and that corrected
vector is the returned second component.  Box FOVs take the early-return
path and never reach the correction block. -/
theorem C6_corrections_before_test (f : FOVState) (v : RawVertex) (p pm pd : Option ℝ)
    (hty : f.fovtype ≠ FovType.radecbox)
    {ra dec : ℝ} {uvraw : Vec3}
    (hp : parse_inertial (.vert v) = .ok (ra, dec, uvraw))
    (w : Vec3)
    (hw : w = specCorrectionPipeline f.obs_pos f.obs_vel f.obs_year uvraw p pm pd) :
    star_in_fov f v p pm pd =
        star_in_fov (stripObs f) (.vec w.x w.y w.z) none none none ∧
      (star_in_fov f v p pm pd).map Prod.snd = .ok (some w) := by
  have hcorr : corrected_uv f uvraw p pm pd = w := by
    rw [corrected_uv_eq_spec, hw]
  have hufix : vhat uvraw = uvraw := parse_vhat_fix hp
  have hwfix : vhat w = w := by
    rw [hw]; exact spec_pipeline_vhat_fix _ _ _ hufix _ _ _
  have hparse2 : parse_inertial (.vert (.vec w.x w.y w.z)) =
      .ok (dpr * recradRA w, dpr * recradDec w, w) := by
    simp only [parse_inertial]
    rw [show (⟨w.x, w.y, w.z⟩ : Vec3) = w from rfl, hwfix]
  have hstrip : corrected_uv (stripObs f) w none none none = w := by
    simp [corrected_uv, stripObs]
  cases hd : f.data with
  | radecbox => exact absurd (by rw [FOVState.fovtype, hd]; rfl) hty
  | circle hdg hrg mc ax =>
    have hd2 : (stripObs f).data = FovData.circle hdg hrg mc ax := by rw [stripObs_data, hd]
    constructor
    · simp only [star_in_fov, hd, hd2, hp, hparse2, hcorr, hstrip]
    · simp only [star_in_fov, hd, hp, hcorr, Except.map]
  | polygon uvavg mtx uvlcl cc =>
    have hd2 : (stripObs f).data = FovData.polygon uvavg mtx uvlcl cc := by
      rw [stripObs_data, hd]
    have huv : (stripObs f).uvfovxyzs = f.uvfovxyzs := rfl
    constructor
    · simp only [star_in_fov, hd, hd2, hp, hparse2, hcorr, hstrip, huv]
    · simp only [star_in_fov, hd, hp, hcorr]
      by_cases hc : (isConvexCore f.uvfovxyzs).1
      · by_cases ha : (isConvexCore f.uvfovxyzs).2.any (fun n => decide (vdot w n < 0)) <;>
          simp [hc, ha, Except.map]
      · by_cases hz : (mxv mtx w).z < 1e-15 <;> simp [hc, hz, Except.map]

/-! ### Cone-FOV constructor helper and concrete cone states -/

theorem mkFOV_cone_eq {ra dec h : ℝ} (op ov : Option Vec3) (oy : Option ℝ)
    (h0 : ra ≤ 360) (h0' : 0 ≤ ra) (hd : dec ≤ 90) (hd' : -90 ≤ dec)
    (hh1 : h < 90) (hh2 : 0 < h) :
    mkFOV [.vert (.angle ra dec), .scalar h] op ov oy =
      .ok { radecdegs := [(ra, dec)]
          , uvfovxyzs := [radrec 1 (ra * rpd) (dec * rpd)]
          , radec_boxes := boxesCircle ra dec h (h * rpd)
          , obs_pos := op, obs_vel := ov, obs_year := oy
          , data := .circle h (h * rpd) (Real.cos (h * rpd)) (radrec 1 (ra * rpd) (dec * rpd)) } := by
  simp [mkFOV, parseLoop, parseStep, parse_inertial_ok _ _ h0 h0' hd hd', hh1, hh2]

/-- The unit vector of the north celestial pole, RA 0 and Dec 90. -/
theorem radrec_north : radrec 1 (0 * rpd) (90 * rpd) = (⟨0, 0, 1⟩ : Vec3) := by
  have h90 : (90 : ℝ) * rpd = π / 2 := by rw [rpd]; ring
  ext <;> simp [radrec, h90, Real.cos_pi_div_two, Real.sin_pi_div_two]

theorem radrec_north' : radrec 1 0 (90 * rpd) = (⟨0, 0, 1⟩ : Vec3) := by
  rw [← radrec_north]
  norm_num

/-- A 45-degree cone about the pole, no correction context (witness FOV). -/
def coneState : FOVState :=
  { radecdegs := [(0, 90)]
  , uvfovxyzs := [radrec 1 (0 * rpd) (90 * rpd)]
  , radec_boxes := boxesCircle 0 90 45 (45 * rpd)
  , obs_pos := none, obs_vel := none, obs_year := none
  , data := .circle 45 (45 * rpd) (Real.cos (45 * rpd)) (radrec 1 (0 * rpd) (90 * rpd)) }

theorem mkFOV_coneState :
    mkFOV [.vert (.angle 0 90), .scalar 45] none none none = .ok coneState := by
  rw [mkFOV_cone_eq none none none (by norm_num) (by norm_num) (by norm_num) (by norm_num)
      (by norm_num) (by norm_num)]
  rfl

/-! ### C5: the returned second component -/

/-- C5 (amended): for cone and polygon FOVs the second component of
star_in_fov is always the corrected unit vector, also when the inside
flag is False; the RA,Dec-box path instead returns the nominal-direction
vector when inside and None when outside. -/
theorem C5_vector_always_returned (f : FOVState) (v : RawVertex) (p pm pd : Option ℝ)
    (hty : f.fovtype ≠ FovType.radecbox) (res : Bool × Option Vec3)
    (hok : star_in_fov f v p pm pd = .ok res) :
    ∃ ra dec uvraw, parse_inertial (.vert v) = .ok (ra, dec, uvraw) ∧
      res.2 = some (corrected_uv f uvraw p pm pd) := by
  cases hd : f.data with
  | radecbox => exact absurd (by rw [FOVState.fovtype, hd]; rfl) hty
  | circle hdg hrg mc ax =>
    cases hparse : parse_inertial (.vert v) with
    | error e => simp [star_in_fov, hd, hparse] at hok
    | ok t =>
      obtain ⟨ra, dec, u⟩ := t
      refine ⟨ra, dec, u, rfl, ?_⟩
      simp only [star_in_fov, hd, hparse] at hok
      rw [← Except.ok.inj hok]
  | polygon uvavg mtx uvlcl cc =>
    cases hparse : parse_inertial (.vert v) with
    | error e => simp [star_in_fov, hd, hparse] at hok
    | ok t =>
      obtain ⟨ra, dec, u⟩ := t
      refine ⟨ra, dec, u, rfl, ?_⟩
      simp only [star_in_fov, hd, hparse] at hok
      by_cases hc : (isConvexCore f.uvfovxyzs).1
      · by_cases ha : (isConvexCore f.uvfovxyzs).2.any
            (fun n => decide (vdot (corrected_uv f u p pm pd) n < 0)) <;>
          simp only [hc, ha, if_true, if_false, Bool.false_eq_true, if_neg,
            Bool.not_false, not_false_iff] at hok <;>
          first
            | rw [← Except.ok.inj hok]
            | rw [← hok]
      · by_cases hz : (mxv mtx (corrected_uv f u p pm pd)).z < 1e-15 <;>
          simp only [hc, hz, if_true, if_false, Bool.false_eq_true, if_neg,
            Except.ok.injEq, not_lt] at hok <;>
          first
            | rw [← Except.ok.inj hok]
            | rw [← hok]

/-- C5 counterexample: for a Box FOV and a star outside it, star_in_fov
returns (False, None) - no vector at all - contradicting the claim that
the corrected vector is always returned. -/
theorem C5_counterexample :
    (mkFOV [.vert (.angle 10 10), .vert (.angle 20 20)] none none none).bind
      (fun f => star_in_fov f (.angle 50 50) none none none) = .ok (false, none) := by
  rw [mkFOV_box_eq _ _ _ _ none none none (by norm_num) (by norm_num) (by norm_num) (by norm_num)
      (by norm_num) (by norm_num) (by norm_num) (by norm_num)]
  have hbx : boxesRadecbox [((10 : ℝ), (10 : ℝ)), (20, 20)] = [⟨10, 20, 10, 20⟩] := by
    rw [boxesRadecbox_pair]
    rw [if_pos (by norm_num)]
    norm_num
  have hnot : inRadecBox 50 50 ⟨10, 20, 10, 20⟩ = false := by
    simp only [inRadecBox, decide_eq_false_iff_not]
    norm_num
  have hparse := parse_inertial_ok 50 50 (by norm_num) (by norm_num)
    (by norm_num) (by norm_num)
  simp [Except.bind, star_in_fov, hparse, hbx, hnot]

/-- C5 witness: a cone FOV and a star, showing the hypotheses of the
amended theorem are satisfiable and the returned second component is a
vector. -/
theorem C5_vector_always_returned_witness :
    ((star_in_fov coneState (.angle 20 30) none none none).map
      (fun res => res.2.isSome)) = .ok true := by
  have hparse := parse_inertial_ok 20 30 (by norm_num) (by norm_num)
    (by norm_num) (by norm_num)
  have hok : star_in_fov coneState (.angle 20 30) none none none =
      .ok (decide (vdot (corrected_uv coneState (radrec 1 (20 * rpd) (30 * rpd)) none none none)
            (radrec 1 (0 * rpd) (90 * rpd)) ≥ Real.cos (45 * rpd)),
          some (corrected_uv coneState (radrec 1 (20 * rpd) (30 * rpd)) none none none)) := by
    simp only [star_in_fov, coneState, hparse]
  obtain ⟨ra, dec, uvraw, hp2, hsnd⟩ :=
    C5_vector_always_returned coneState (.angle 20 30) none none none
      (by rw [show coneState.fovtype = FovType.circle from rfl]; intro hcon; cases hcon)
      _ hok
  rw [hok, Except.map]
  simp only at hsnd ⊢
  rw [hsnd]
  rfl

/-! ### C6: counterexample and witness -/

/-- An observer velocity whose aberration moves the star at (15, 45)
exactly onto the pole. -/
def velC6 : Vec3 := vscl clight (vsub ⟨0, 0, 1⟩ (radrec 1 (15 * rpd) (45 * rpd)))

/-- C6 counterexample: for a Box FOV the corrections are never applied -
the star at (15, 45) is reported inside with its nominal vector although
its spec-corrected vector is the pole, whose coordinates lie in no box.
This refutes the claim for the Box FOV type. -/
theorem C6_counterexample :
    (mkFOV [.vert (.angle 10 40), .vert (.angle 20 50)] none (some velC6) none).bind
        (fun f => star_in_fov f (.angle 15 45) none none none) =
      .ok (true, some (radrec 1 (rpd * 15) (rpd * 45))) ∧
    specCorrectionPipeline none (some velC6) none (radrec 1 (15 * rpd) (45 * rpd))
        none none none = (⟨0, 0, 1⟩ : Vec3) ∧
    inRadecBox (dpr * recradRA ⟨0, 0, 1⟩) (dpr * recradDec ⟨0, 0, 1⟩) ⟨10, 20, 40, 50⟩ =
      false := by
  have hcl : clight ≠ 0 := by rw [clight]; norm_num
  have habr : vscl recip_clight velC6 = vsub ⟨0, 0, 1⟩ (radrec 1 (15 * rpd) (45 * rpd)) := by
    ext <;> simp only [velC6, vscl, vsub, recip_clight] <;> field_simp <;> ring
  refine ⟨?_, ?_, ?_⟩
  · rw [mkFOV_box_eq _ _ _ _ none (some velC6) none (by norm_num) (by norm_num) (by norm_num)
      (by norm_num) (by norm_num) (by norm_num) (by norm_num) (by norm_num)]
    have hbx : boxesRadecbox [((10 : ℝ), (40 : ℝ)), (20, 50)] = [⟨10, 20, 40, 50⟩] := by
      rw [boxesRadecbox_pair, if_pos (by norm_num)]
      norm_num
    have hin : inRadecBox 15 45 ⟨10, 20, 40, 50⟩ = true := by
      simp only [inRadecBox, decide_eq_true_eq]
      norm_num
    have hparse := parse_inertial_ok 15 45 (by norm_num) (by norm_num)
      (by norm_num) (by norm_num)
    simp [Except.bind, star_in_fov, hparse, hbx, hin]
  · simp only [specCorrectionPipeline, habr]
    have h2 : vadd (radrec 1 (15 * rpd) (45 * rpd))
        (vsub ⟨0, 0, 1⟩ (radrec 1 (15 * rpd) (45 * rpd))) = (⟨0, 0, 1⟩ : Vec3) := by
      ext <;> simp only [vadd, vsub] <;> ring
    rw [h2]
    exact vhat_of_vnorm_one (by rw [vnorm]; simp [vdot])
  · simp only [inRadecBox, decide_eq_false_iff_not]
    have hra : recradRA ⟨0, 0, 1⟩ = 0 := by norm_num [recradRA, atan2]
    rw [hra]
    intro hcon
    have := hcon.1
    rw [mul_zero] at this
    norm_num at this

/-- The FOV of the C6 witness: the 45-degree pole cone with a (zero)
observer velocity, so the aberration step of the pipeline is active. -/
def coneVState : FOVState := { coneState with obs_vel := some ⟨0, 0, 0⟩ }

def wC6 : Vec3 :=
  specCorrectionPipeline none (some ⟨0, 0, 0⟩) none (radrec 1 (20 * rpd) (30 * rpd))
    none none none

/-- C6 witness: the amended theorem applied to a concrete cone FOV with an
observer velocity. -/
theorem C6_corrections_before_test_witness :
    star_in_fov coneVState (.angle 20 30) none none none =
        star_in_fov (stripObs coneVState) (.vec wC6.x wC6.y wC6.z) none none none ∧
      (star_in_fov coneVState (.angle 20 30) none none none).map Prod.snd = .ok (some wC6) :=
  C6_corrections_before_test coneVState (.angle 20 30) none none none
    (by rw [show coneVState.fovtype = FovType.circle from rfl]; intro hcon; cases hcon)
    (parse_inertial_ok 20 30 (by norm_num) (by norm_num) (by norm_num)
      (by norm_num))
    wC6 rfl

/-! ### C1: bounding boxes versus the classifier -/

/-- C1 (amended): for a Box FOV, any direction star_in_fov classifies as
inside has its nominal longitude/latitude in at least one returned box
(the box path tests exactly box membership of the nominal coordinates). -/
theorem C1_box_superset (f : FOVState) (v : RawVertex) (p pm pd : Option ℝ)
    (hty : f.data = FovData.radecbox) {ra dec : ℝ} {u : Vec3}
    (hp : parse_inertial (.vert v) = .ok (ra, dec, u))
    {w : Option Vec3}
    (hok : star_in_fov f v p pm pd = .ok (true, w)) :
    ∃ bx ∈ f.radec_boxes, bx.ralo ≤ ra ∧ ra ≤ bx.rahi ∧ bx.declo ≤ dec ∧ dec ≤ bx.dechi := by
  simp only [star_in_fov, hty, hp] at hok
  by_cases ha : f.radec_boxes.any (inRadecBox ra dec)
  · obtain ⟨bx, hmem, hbx⟩ := List.any_eq_true.mp ha
    exact ⟨bx, hmem, by simpa [inRadecBox] using hbx⟩
  · simp [ha] at hok

/-- A Box FOV used as the witness of the amended C1. -/
def boxB : FOVState :=
  { radecdegs := [(100, 20), (120, 40)]
  , uvfovxyzs := [radrec 1 (100 * rpd) (20 * rpd), radrec 1 (120 * rpd) (40 * rpd)]
  , radec_boxes := boxesRadecbox [(100, 20), (120, 40)]
  , obs_pos := none, obs_vel := none, obs_year := none
  , data := .radecbox }

/-- C1 witness: the star at (110, 30) is classified inside the Box FOV
with corners (100, 20) and (120, 40), and its nominal coordinates lie in
a returned box. -/
theorem C1_box_superset_witness :
    star_in_fov boxB (.angle 110 30) none none none =
        .ok (true, some (radrec 1 (rpd * 110) (rpd * 30))) ∧
      ∃ bx ∈ boxB.radec_boxes,
        bx.ralo ≤ 110 ∧ (110 : ℝ) ≤ bx.rahi ∧ bx.declo ≤ 30 ∧ (30 : ℝ) ≤ bx.dechi := by
  have hbx : boxesRadecbox [((100 : ℝ), (20 : ℝ)), (120, 40)] = [⟨100, 120, 20, 40⟩] := by
    rw [boxesRadecbox_pair, if_pos (by norm_num)]
    norm_num
  have hin : inRadecBox 110 30 ⟨100, 120, 20, 40⟩ = true := by
    simp only [inRadecBox, decide_eq_true_eq]
    norm_num
  have hparse := parse_inertial_ok 110 30 (by norm_num) (by norm_num)
    (by norm_num) (by norm_num)
  have hok : star_in_fov boxB (.angle 110 30) none none none =
      .ok (true, some (radrec 1 (rpd * 110) (rpd * 30))) := by
    simp [star_in_fov, boxB, hparse, hbx, hin]
  exact ⟨hok, C1_box_superset boxB (.angle 110 30) none none none rfl hparse hok⟩

/-- The aberration velocity of the C1 counterexample: it carries the star
at (0, 84) onto the pole. -/
def velC1 : Vec3 := vscl clight ⟨-(Real.cos (84 * rpd)), 0, 1⟩

/-- The 5-degree pole cone with that observer velocity. -/
def coneP : FOVState :=
  { radecdegs := [(0, 90)]
  , uvfovxyzs := [radrec 1 (0 * rpd) (90 * rpd)]
  , radec_boxes := boxesCircle 0 90 5 (5 * rpd)
  , obs_pos := none, obs_vel := some velC1, obs_year := none
  , data := .circle 5 (5 * rpd) (Real.cos (5 * rpd)) (radrec 1 (0 * rpd) (90 * rpd)) }

/-- C1 counterexample: a cone FOV whose aberration correction moves the
star at nominal (0, 84) inside the cone, while (0, 84) lies in no
returned bounding box [0, 360, 85, 90] - the boxes are not a superset of
what the classifier accepts once corrections act. -/
theorem C1_counterexample :
    mkFOV [.vert (.angle 0 90), .scalar 5] none (some velC1) none = .ok coneP ∧
    coneP.get_radec_boxes = [⟨0, 360, 85, 90⟩] ∧
    (star_in_fov coneP (.angle 0 84) none none none).map Prod.fst = .ok true ∧
    coneP.radec_boxes.any (inRadecBox 0 84) = false := by
  have hboxes : boxesCircle 0 90 5 (5 * rpd) = [⟨0, 360, 85, 90⟩] := by
    rw [boxesCircle]
    rw [if_pos (by norm_num)]
    norm_num
  have hsin : 0 < Real.sin (84 * rpd) := by
    rw [rpd]
    apply Real.sin_pos_of_pos_of_lt_pi
    · positivity
    · nlinarith [Real.pi_pos]
  have hcorr : ∀ f : FOVState, f.obs_year = none → f.obs_pos = none →
      f.obs_vel = some velC1 →
      corrected_uv f (radrec 1 (0 * rpd) (84 * rpd)) none none none = (⟨0, 0, 1⟩ : Vec3) := by
    intro f hy hp hv
    have hcl : clight ≠ 0 := by rw [clight]; norm_num
    have h1 : vscl recip_clight velC1 = (⟨-(Real.cos (84 * rpd)), 0, 1⟩ : Vec3) := by
      ext <;> simp only [velC1, vscl, recip_clight] <;> field_simp <;> ring
    have h2 : vadd (radrec 1 (0 * rpd) (84 * rpd)) ⟨-(Real.cos (84 * rpd)), 0, 1⟩ =
        (⟨0, 0, Real.sin (84 * rpd) + 1⟩ : Vec3) := by
      ext <;>
        simp only [radrec, vadd, show (0 : ℝ) * rpd = 0 from by ring, Real.cos_zero,
          Real.sin_zero] <;> ring
    have hs1 : (0 : ℝ) < Real.sin (84 * rpd) + 1 := by linarith
    have hn : vnorm ⟨0, 0, Real.sin (84 * rpd) + 1⟩ = Real.sin (84 * rpd) + 1 := by
      rw [vnorm]
      simp only [vdot]
      rw [show (0 : ℝ) * 0 + 0 * 0 + (Real.sin (84 * rpd) + 1) * (Real.sin (84 * rpd) + 1) =
        (Real.sin (84 * rpd) + 1) ^ 2 by ring]
      exact Real.sqrt_sq hs1.le
    simp only [corrected_uv, hy, hp, hv, h1, h2]
    ext <;> simp only [vhat, hn, vscl] <;> field_simp
  refine ⟨?_, ?_, ?_, ?_⟩
  · rw [mkFOV_cone_eq none (some velC1) none (by norm_num) (by norm_num) (by norm_num)
      (by norm_num) (by norm_num) (by norm_num)]
    rfl
  · rw [FOVState.get_radec_boxes]
    exact hboxes
  · have hparse := parse_inertial_ok 0 84 (by norm_num) (by norm_num)
      (by norm_num) (by norm_num)
    have hdata : coneP.data =
        FovData.circle 5 (5 * rpd) (Real.cos (5 * rpd)) (radrec 1 (0 * rpd) (90 * rpd)) := rfl
    simp only [star_in_fov, hdata, hparse, Except.map]
    rw [hcorr _ rfl rfl rfl, radrec_north]
    have h1 : vdot (⟨0, 0, 1⟩ : Vec3) (⟨0, 0, 1⟩ : Vec3) ≥ Real.cos (5 * rpd) := by
      simp only [vdot]
      norm_num
      exact Real.cos_le_one _
    rw [decide_eq_true h1]
  · show List.any (boxesCircle 0 90 5 (5 * rpd)) (inRadecBox 0 84) = false
    rw [hboxes]
    simp only [List.any_cons, List.any_nil, inRadecBox, Bool.or_false,
      decide_eq_false_iff_not]
    intro hcon
    have := hcon.2.2.1
    norm_num at this

/-! ### C8: cone classification is boundary-inclusive -/

theorem dpr_mul_rpd : dpr * rpd = 1 := by
  rw [dpr, rpd]
  field_simp

theorem dpr_pos : 0 < dpr := by
  rw [dpr]
  positivity

theorem rpd_pos : 0 < rpd := by
  rw [rpd]
  positivity

/-- The Cauchy-Schwarz bound for the 3-vector dot product. -/
theorem vdot_sq_le (a b : Vec3) : (vdot a b) ^ 2 ≤ (vdot a a) * (vdot b b) := by
  simp only [vdot]
  nlinarith [sq_nonneg (a.y * b.z - a.z * b.y), sq_nonneg (a.z * b.x - a.x * b.z),
    sq_nonneg (a.x * b.y - a.y * b.x)]

theorem vdot_unit_self {a : Vec3} (ha : vnorm a = 1) : vdot a a = 1 := by
  have := vnorm_sq a
  rw [ha] at this
  linarith

theorem vdot_mem_unit {a b : Vec3} (ha : vnorm a = 1) (hb : vnorm b = 1) :
    -1 ≤ vdot a b ∧ vdot a b ≤ 1 := by
  have h := vdot_sq_le a b
  rw [vdot_unit_self ha, vdot_unit_self hb] at h
  constructor <;> nlinarith [h]

/-- C8: for a cone FOV with half-angle in (0, 90), the classification of a
unit candidate vector (with all corrections disabled) is boundary
inclusive: the axis itself is inside, a candidate at angular separation
exactly the half-angle is inside, and a candidate at strictly greater
separation is outside. -/
theorem C8_cone_boundary (f : FOVState) (hdg hrg mc : ℝ) (ax : Vec3)
    (hd : f.data = FovData.circle hdg hrg mc ax)
    (hrgdef : hrg = hdg * rpd) (hmc : mc = Real.cos hrg)
    (h1 : 0 < hdg) (h2 : hdg < 90)
    (hax : vnorm ax = 1)
    (v : Vec3) (hv : vnorm v = 1)
    (res : Bool × Option Vec3)
    (hok : star_in_fov f (.vec v.x v.y v.z) none none none = .ok res)
    (hop : f.obs_pos = none) (hov : f.obs_vel = none) (hoy : f.obs_year = none) :
    (v = ax → res.1 = true) ∧
    (dpr * Real.arccos (vdot v ax) = hdg → res.1 = true) ∧
    (dpr * Real.arccos (vdot v ax) > hdg → res.1 = false) := by
  have hveta : (⟨v.x, v.y, v.z⟩ : Vec3) = v := rfl
  have hvv : vhat v = v := vhat_of_vnorm_one hv
  have hcorr : corrected_uv f v none none none = v := by
    simp only [corrected_uv, hop, hov, hoy]
  have hok2 : res = (decide (vdot v ax ≥ mc), some v) := by
    simp only [star_in_fov, hd, parse_inertial, hveta, hvv, hcorr] at hok
    exact (Except.ok.inj hok).symm
  have hd1 : res.1 = decide (vdot v ax ≥ mc) := by rw [hok2]
  have hmem := vdot_mem_unit hv hax
  have hrgpos : 0 < hrg := by
    rw [hrgdef]
    exact mul_pos h1 rpd_pos
  refine ⟨?_, ?_, ?_⟩
  · intro hveq
    rw [hd1, hveq, vdot_unit_self hax]
    exact decide_eq_true (by rw [hmc]; exact Real.cos_le_one _)
  · intro hsep
    have harc : Real.arccos (vdot v ax) = hrg := by
      have hne : dpr ≠ 0 := ne_of_gt dpr_pos
      have := congrArg (fun t => rpd * t) hsep
      simp only at this
      rw [show rpd * (dpr * Real.arccos (vdot v ax)) =
        (dpr * rpd) * Real.arccos (vdot v ax) by ring, dpr_mul_rpd, one_mul] at this
      rw [this, hrgdef]
      ring
    have : vdot v ax = Real.cos hrg := by
      rw [← harc]
      exact (Real.cos_arccos hmem.1 hmem.2).symm
    rw [hd1]
    exact decide_eq_true (by rw [this, hmc])
  · intro hsep
    have harc : hrg < Real.arccos (vdot v ax) := by
      have h3 : hdg * rpd < (dpr * Real.arccos (vdot v ax)) * rpd :=
        (mul_lt_mul_right rpd_pos).mpr hsep
      rw [show (dpr * Real.arccos (vdot v ax)) * rpd =
        (dpr * rpd) * Real.arccos (vdot v ax) by ring, dpr_mul_rpd, one_mul] at h3
      rw [hrgdef]
      exact h3
    have hlt : vdot v ax < mc := by
      have := Real.cos_lt_cos_of_nonneg_of_le_pi hrgpos.le (Real.arccos_le_pi _) harc
      rw [Real.cos_arccos hmem.1 hmem.2] at this
      rw [hmc]
      exact this
    rw [hd1]
    exact decide_eq_false (by simpa using hlt)

/-- C8 witness: the axis of the 45-degree pole cone is classified inside. -/
theorem C8_cone_boundary_witness :
    (star_in_fov coneState (.vec 0 0 1) none none none).map Prod.fst = .ok true := by
  have hv1 : vnorm (⟨0, 0, 1⟩ : Vec3) = 1 := by
    rw [vnorm]
    simp only [vdot]
    norm_num
  have hvv : vhat (⟨0, 0, 1⟩ : Vec3) = ⟨0, 0, 1⟩ := vhat_of_vnorm_one hv1
  have hax : vnorm (radrec 1 (0 * rpd) (90 * rpd)) = 1 := vnorm_radrec _ _
  have hdata : coneState.data =
      FovData.circle 45 (45 * rpd) (Real.cos (45 * rpd)) (radrec 1 (0 * rpd) (90 * rpd)) := rfl
  have hok : star_in_fov coneState (.vec 0 0 1) none none none =
      .ok (decide (vdot (⟨0, 0, 1⟩ : Vec3) (radrec 1 (0 * rpd) (90 * rpd)) ≥
            Real.cos (45 * rpd)),
          some (⟨0, 0, 1⟩ : Vec3)) := by
    have hcorr : corrected_uv coneState (⟨0, 0, 1⟩ : Vec3) none none none = ⟨0, 0, 1⟩ := by
      simp only [corrected_uv, show coneState.obs_year = none from rfl,
        show coneState.obs_pos = none from rfl, show coneState.obs_vel = none from rfl]
    simp only [star_in_fov, hdata, parse_inertial, hvv, hcorr]
  have h := (C8_cone_boundary coneState 45 (45 * rpd) (Real.cos (45 * rpd))
    (radrec 1 (0 * rpd) (90 * rpd)) hdata rfl rfl (by norm_num) (by norm_num) hax
    (⟨0, 0, 1⟩ : Vec3) hv1 _ hok rfl rfl rfl).1 radrec_north.symm
  rw [hok, Except.map]
  simp only at h
  rw [h]

/-! ### C2: the polygon RA box loop can emit ralo > rahi

The RA update in the box loop is an if/elif pair against limits
initialized inverted to (360, 0); a polygon whose vertex RAs only ever
raise rahi leaves ralo at 360. -/

def raStep (lohi : ℝ × ℝ) (ra : ℝ) : ℝ × ℝ :=
  if ra > lohi.2 then (lohi.1, ra) else if ra < lohi.1 then (ra, lohi.2) else lohi

theorem boxStep_ra (acc : BoxAcc) (p : PolyPair) :
    ((boxStep acc p).ralo, (boxStep acc p).rahi) = raStep (acc.ralo, acc.rahi) p.ra := by
  simp only [boxStep, raStep]

/-- The RA components of the polygon box fold depend only on the RAs. -/
theorem polyBox_ra (subfov : List PolyPair) (acc : BoxAcc) :
    ((subfov.foldl boxStep acc).ralo, (subfov.foldl boxStep acc).rahi) =
      subfov.foldl (fun lohi p => raStep lohi p.ra) (acc.ralo, acc.rahi) := by
  induction subfov generalizing acc with
  | nil => rfl
  | cons p rest ih =>
    simp only [List.foldl_cons]
    rw [ih, boxStep_ra]

theorem vdot_vscl (k : ℝ) (w v : Vec3) : vdot (vscl k w) v = k * vdot w v := by
  simp only [vdot, vscl]
  ring

theorem vdot_vhat_pos {w v : Vec3} (hw : 0 < vdot w w) (h : 0 < vdot w v) :
    0 < vdot (vhat w) v := by
  rw [vhat, vdot_vscl]
  have hn : 0 < vnorm w := Real.sqrt_pos.mpr hw
  positivity

/-- The three vertices of the counterexample triangle, RA 90/180/270 at
Dec 45 (all exact trigonometric values). -/
theorem radrec_tri1 : radrec 1 (90 * rpd) (45 * rpd) =
    (⟨0, Real.sqrt 2 / 2, Real.sqrt 2 / 2⟩ : Vec3) := by
  have h90 : (90 : ℝ) * rpd = π / 2 := by rw [rpd]; ring
  have h45 : (45 : ℝ) * rpd = π / 4 := by rw [rpd]; ring
  ext <;> simp [radrec, h90, h45, Real.cos_pi_div_two, Real.sin_pi_div_two,
    Real.cos_pi_div_four, Real.sin_pi_div_four]

theorem radrec_tri2 : radrec 1 (180 * rpd) (45 * rpd) =
    (⟨-(Real.sqrt 2 / 2), 0, Real.sqrt 2 / 2⟩ : Vec3) := by
  have h180 : (180 : ℝ) * rpd = π := by rw [rpd]; field_simp
  have h45 : (45 : ℝ) * rpd = π / 4 := by rw [rpd]; ring
  ext <;> simp [radrec, h180, h45, Real.cos_pi, Real.sin_pi,
    Real.cos_pi_div_four, Real.sin_pi_div_four]

theorem radrec_tri3 : radrec 1 (270 * rpd) (45 * rpd) =
    (⟨0, -(Real.sqrt 2 / 2), Real.sqrt 2 / 2⟩ : Vec3) := by
  have h270 : (270 : ℝ) * rpd = π / 2 + π := by rw [rpd]; ring
  have h45 : (45 : ℝ) * rpd = π / 4 := by rw [rpd]; ring
  ext <;> simp [radrec, h270, h45, Real.cos_add_pi, Real.sin_add_pi,
    Real.cos_pi_div_two, Real.sin_pi_div_two,
    Real.cos_pi_div_four, Real.sin_pi_div_four]

/-- C2 / code bug: the polygon [[90,45],[180,45],[270,45]] is accepted and
its (single) RA,Dec box has ralo = 360 > rahi = 270, contradicting the
claim that every emitted box satisfies ralo <= rahi (the RA update in the
box loop is an if/elif pair, so rising vertex RAs never lower ralo from
its inverted 360 initialization). -/
theorem C2_poly_box_ralo_gt_rahi :
    ∃ f, mkFOV [.vert (.angle 90 45), .vert (.angle 180 45), .vert (.angle 270 45)]
        none none none = .ok f ∧
      ∃ bx ∈ f.get_radec_boxes, bx.rahi < bx.ralo := by
  have hs2 : Real.sqrt 2 * Real.sqrt 2 = 2 := Real.mul_self_sqrt (by norm_num)
  set s : ℝ := Real.sqrt 2 / 2 with hs
  have hsp : 0 < s := by
    rw [hs]
    positivity
  have hss : s * s = 1 / 2 := by
    rw [hs]
    nlinarith [hs2]
  set v1 : Vec3 := ⟨0, s, s⟩ with hv1
  set v2 : Vec3 := ⟨-s, 0, s⟩ with hv2
  set v3 : Vec3 := ⟨0, -s, s⟩ with hv3
  set w : Vec3 := ⟨-s, 0, 3 * s⟩ with hw
  have hp1 := parse_inertial_ok 90 45 (by norm_num) (by norm_num)
    (by norm_num) (by norm_num)
  have hp2 := parse_inertial_ok 180 45 (by norm_num) (by norm_num)
    (by norm_num) (by norm_num)
  have hp3 := parse_inertial_ok 270 45 (by norm_num) (by norm_num)
    (by norm_num) (by norm_num)
  rw [radrec_tri1] at hp1
  rw [radrec_tri2] at hp2
  rw [radrec_tri3] at hp3
  have hparse : parseLoop 3
      [.vert (.angle 90 45), .vert (.angle 180 45), .vert (.angle 270 45)]
      ⟨[], [], ⟨0, 0, 0⟩, FovType.polygon, none⟩ =
      .ok ⟨[(90, 45), (180, 45), (270, 45)], [v1, v2, v3], w, FovType.polygon, none⟩ := by
    simp only [parseLoop, parseStep, hp1, hp2, hp3, List.length_nil, List.length_append,
      List.length_cons, List.nil_append, List.cons_append, List.append_nil]
    norm_num [vadd, hw, hv1, hv2, hv3]
    ring
  have hww : 0 < vdot w w := by
    simp only [vdot, hw]
    nlinarith [hss, hsp]
  have hd1 : 0 < vdot (vhat w) v1 := by
    apply vdot_vhat_pos hww
    show (0 : ℝ) < w.x * v1.x + w.y * v1.y + w.z * v1.z
    rw [hw, hv1]
    show (0 : ℝ) < -s * 0 + 0 * s + 3 * s * s
    nlinarith [hss]
  have hd2 : 0 < vdot (vhat w) v2 := by
    apply vdot_vhat_pos hww
    show (0 : ℝ) < w.x * v2.x + w.y * v2.y + w.z * v2.z
    rw [hw, hv2]
    show (0 : ℝ) < -s * -s + 0 * 0 + 3 * s * s
    nlinarith [hss]
  have hd3 : 0 < vdot (vhat w) v3 := by
    apply vdot_vhat_pos hww
    show (0 : ℝ) < w.x * v3.x + w.y * v3.y + w.z * v3.z
    rw [hw, hv3]
    show (0 : ℝ) < -s * 0 + 0 * -s + 3 * s * s
    nlinarith [hss]
  have hfr : ∃ fr, polyFrame [v1, v2, v3] w = .ok fr := by
    simp only [polyFrame, hemiScale, if_pos hd1, if_pos hd2, if_pos hd3]
    exact ⟨_, rfl⟩
  obtain ⟨fr, hfrok⟩ := hfr
  have hlast : List.getLastD [((90, 45), v1), ((180, 45), v2), ((270, 45), v3)] dfltPair =
      (((270 : ℝ), (45 : ℝ)), v3) := rfl
  have hpop : popPM 3 [((90, 45), v1), ((180, 45), v2), ((270, 45), v3)] =
      .ok [((90, 45), v1), ((180, 45), v2), ((270, 45), v3)] := by
    rw [popPM, if_neg]
    rw [hlast]
    show ¬((270 : ℝ) = 0)
    norm_num
  have habs1 : ¬(180 < |(90 : ℝ) - 270|) := by
    rw [not_lt]
    exact abs_le.mpr (by norm_num)
  have habs2 : ¬(180 < |(180 : ℝ) - 90|) := by
    rw [not_lt]
    exact abs_le.mpr (by norm_num)
  have habs3 : ¬(180 < |(270 : ℝ) - 180|) := by
    rw [not_lt]
    exact abs_le.mpr (by norm_num)
  have hc1 : crossStep ⟨0, 0, 270⟩ (((90 : ℝ), (45 : ℝ)), v1) = ⟨0, 0, 90⟩ := by
    simp only [crossStep, PolyPair.ra]
    rw [if_neg (by norm_num : ¬((90 : ℝ) = 0 ∧ (270 : ℝ) > 180))]
    rw [if_neg habs1]
    rw [if_neg (by norm_num : ¬(90 : ℝ) = 0)]
  have hc2 : crossStep ⟨0, 0, 90⟩ (((180 : ℝ), (45 : ℝ)), v2) = ⟨0, 0, 180⟩ := by
    simp only [crossStep, PolyPair.ra]
    rw [if_neg (by norm_num : ¬((180 : ℝ) = 0 ∧ (90 : ℝ) > 180))]
    rw [if_neg habs2]
    rw [if_neg (by norm_num : ¬(180 : ℝ) = 0)]
  have hc3 : crossStep ⟨0, 0, 180⟩ (((270 : ℝ), (45 : ℝ)), v3) = ⟨0, 0, 270⟩ := by
    simp only [crossStep, PolyPair.ra]
    rw [if_neg (by norm_num : ¬((270 : ℝ) = 0 ∧ (180 : ℝ) > 180))]
    rw [if_neg habs3]
    rw [if_neg (by norm_num : ¬(270 : ℝ) = 0)]
  have hcross : countCross [((90, 45), v1), ((180, 45), v2), ((270, 45), v3)] =
      ⟨0, 0, 270⟩ := by
    simp only [countCross, hlast, PolyPair.ra, List.foldl_cons, List.foldl_nil]
    rw [hc1, hc2, hc3]
  have hboxes : boxesPolygon [(90, 45), (180, 45), (270, 45)] [v1, v2, v3] fr.uvavg 3 =
      .ok ([polyBox [((90, 45), v1), ((180, 45), v2), ((270, 45), v3)] ⟨360, 0, 90, -90⟩],
        0) := by
    simp only [boxesPolygon, List.zip_cons_cons, List.zip_nil_right]
    rw [hpop]
    simp only [hcross, polyBoxesOf]
    norm_num
  have hra : (List.foldl (fun lohi (p : PolyPair) => raStep lohi p.ra) ((360 : ℝ), (0 : ℝ))
      [((90, 45), v1), ((180, 45), v2), ((270, 45), v3)]) = ((360 : ℝ), (270 : ℝ)) := by
    simp only [List.foldl_cons, List.foldl_nil, PolyPair.ra]
    rw [show raStep (360, 0) 90 = ((360 : ℝ), (90 : ℝ)) by
      rw [raStep, if_pos (by norm_num : (90 : ℝ) > 0)]]
    rw [show raStep (360, 90) 180 = ((360 : ℝ), (180 : ℝ)) by
      rw [raStep, if_pos (by norm_num : (180 : ℝ) > 90)]]
    rw [raStep, if_pos (by norm_num : (270 : ℝ) > 180)]
  have hlt : (polyBox [((90, 45), v1), ((180, 45), v2), ((270, 45), v3)]
      ⟨360, 0, 90, -90⟩).rahi <
      (polyBox [((90, 45), v1), ((180, 45), v2), ((270, 45), v3)] ⟨360, 0, 90, -90⟩).ralo := by
    simp only [polyBox]
    have hp := polyBox_ra [((90, 45), v1), ((180, 45), v2), ((270, 45), v3)]
      ⟨360, 0, 90, -90, PolyPair.xyz (List.getLastD [((90, 45), v1), ((180, 45), v2),
        ((270, 45), v3)] dfltPair)⟩
    rw [hra] at hp
    have h12 := Prod.ext_iff.mp hp
    simp only at h12
    rw [h12.1, h12.2]
    norm_num
  refine ⟨⟨[(90, 45), (180, 45), (270, 45)], [v1, v2, v3],
      [polyBox [((90, 45), v1), ((180, 45), v2), ((270, 45), v3)] ⟨360, 0, 90, -90⟩],
      none, none, none, .polygon fr.uvavg fr.mtxtofov fr.uvlclxyzs 0⟩, ?_, ?_⟩
  · show mkFOV _ none none none = .ok _
    simp only [mkFOV, List.length_cons, List.length_nil, Nat.reduceAdd]
    rw [if_neg (by norm_num)]
    rw [hparse]
    dsimp only
    rw [hfrok]
    dsimp only
    rw [hboxes]
  · exact ⟨polyBox [((90, 45), v1), ((180, 45), v2), ((270, 45), v3)] ⟨360, 0, 90, -90⟩,
      by simp [FOVState.get_radec_boxes], hlt⟩

/-- C10: for a non-convex polygon FOV, a star whose vector rotated into the
local frame has Z component below 1e-15 is reported outside (with the
corrected vector) before the crossing-number test, so the scaling onto the
plane Z=1 never divides by a non-positive Z. -/
theorem C10_nonconvex_low_z_guard (f : FOVState) (uvavg : Vec3) (mtx : Mtx3)
    (uvlcl : List Vec3) (cc : ℕ) (vstar : RawVertex) (p q r : Option ℝ)
    (ra dec : ℝ) (uvraw : Vec3)
    (hdata : f.data = .polygon uvavg mtx uvlcl cc)
    (hparse : parse_inertial (.vert vstar) = .ok (ra, dec, uvraw))
    (hconv : (isConvexCore f.uvfovxyzs).1 = false)
    (hz : (mxv mtx (corrected_uv f uvraw p q r)).z < 1e-15) :
    star_in_fov f vstar p q r = .ok (false, some (corrected_uv f uvraw p q r)) := by
  simp only [star_in_fov, hdata, hparse]
  rw [hconv]
  simp only [Bool.false_eq_true, if_false]
  rw [if_pos hz]

/-- A hand-built non-convex polygon FOV state (two perpendicular sides with a
collinear middle vertex giving an exactly-zero scan dot product), local frame
the identity. -/
def fC10 : FOVState :=
  ⟨[], [⟨1, 0, 0⟩, ⟨1, 1, 0⟩, ⟨0, 1, 0⟩], [], none, none, none,
    .polygon ⟨0, 0, 1⟩ ⟨⟨1, 0, 0⟩, ⟨0, 1, 0⟩, ⟨0, 0, 1⟩⟩ [] 0⟩

theorem C10_nonconvex_low_z_guard_witness :
    star_in_fov fC10 (.vec 0 0 (-1)) none none none =
      .ok (false, some ⟨0, 0, -1⟩) := by
  have hn : vnorm ⟨0, 0, -1⟩ = 1 := by
    rw [vnorm, show vdot ⟨0, 0, -1⟩ ⟨0, 0, -1⟩ = 1 by norm_num [vdot]]
    exact Real.sqrt_one
  have hv : vhat (⟨0, 0, -1⟩ : Vec3) = ⟨0, 0, -1⟩ := vhat_of_vnorm_one hn
  have hparse : parse_inertial (.vert (.vec 0 0 (-1))) =
      .ok (dpr * recradRA ⟨0, 0, -1⟩, dpr * recradDec ⟨0, 0, -1⟩, ⟨0, 0, -1⟩) := by
    simp only [parse_inertial]
    rw [hv]
  have hconv : (isConvexCore fC10.uvfovxyzs).1 = false := by
    have hcr : ucrss (⟨0, 1, 0⟩ : Vec3) ⟨1, 0, 0⟩ = ⟨0, 0, -1⟩ := by
      rw [ucrss, show vcrss (⟨0, 1, 0⟩ : Vec3) ⟨1, 0, 0⟩ = ⟨0, 0, -1⟩ by
        simp only [vcrss]; norm_num]
      exact hv
    show (isConvexCore [⟨1, 0, 0⟩, ⟨1, 1, 0⟩, ⟨0, 1, 0⟩]).1 = false
    simp only [isConvexCore, List.getLastD, List.headD, List.drop, List.dropLast,
      List.getLast]
    rw [hcr]
    rw [show scanDots ⟨0, 0, -1⟩ [⟨1, 1, 0⟩] false false = none by
      rw [scanDots]
      rw [if_neg (by norm_num [vdot]), if_neg (by norm_num [vdot])]]
  have hcor : corrected_uv fC10 ⟨0, 0, -1⟩ none none none = ⟨0, 0, -1⟩ := rfl
  have hz : (mxv ⟨⟨1, 0, 0⟩, ⟨0, 1, 0⟩, ⟨0, 0, 1⟩⟩
      (corrected_uv fC10 ⟨0, 0, -1⟩ none none none)).z < 1e-15 := by
    rw [hcor]
    norm_num [mxv, vdot]
  have h := C10_nonconvex_low_z_guard fC10 ⟨0, 0, 1⟩ ⟨⟨1, 0, 0⟩, ⟨0, 1, 0⟩, ⟨0, 0, 1⟩⟩
    [] 0 (.vec 0 0 (-1)) none none none
    (dpr * recradRA ⟨0, 0, -1⟩) (dpr * recradDec ⟨0, 0, -1⟩) ⟨0, 0, -1⟩
    rfl hparse hconv hz
  rw [hcor] at h
  exact h

/-! ### The merge loop: selection minimality and row accounting -/

/-- A well-formed cursor: once the buffered row is gone the pending list is
empty (rows are only removed through cursor_next), and the rows it can still
deliver are sorted by ascending magnitude. -/
def cursorOK (c : GAIASQL) : Prop :=
  (c.row = none → c.pending = []) ∧ ((availRows c).map GRow.mean_mag).Sorted (· ≤ ·)

/-- All rows still deliverable by a cursor list. -/
def joinAvail (cs : List GAIASQL) : List GRow := (cs.map availRows).join

theorem availRows_eq_cons {c : GAIASQL} {r : GRow} (h : c.row = some r) :
    availRows c = r :: availRows (cursor_next c) := by
  cases hp : c.pending with
  | nil => simp [availRows, cursor_next, hp, GAIASQL.close, h]
  | cons a rest => simp [availRows, cursor_next, hp, h]

theorem cursorOK_next {c : GAIASQL} {r : GRow} (h : c.row = some r)
    (hc : cursorOK c) : cursorOK (cursor_next c) := by
  have hs := hc.2
  rw [availRows_eq_cons h, List.map_cons, List.sorted_cons] at hs
  cases hp : c.pending with
  | nil =>
    refine ⟨fun _ => ?_, hs.2⟩
    simp [cursor_next, hp, GAIASQL.close]
  | cons a rest =>
    refine ⟨fun hn => ?_, hs.2⟩
    simp [cursor_next, hp] at hn

theorem joinAvail_set : ∀ (cs : List GAIASQL) (j : ℕ) {c : GAIASQL} {r : GRow},
    cs.get? j = some c → c.row = some r →
    List.Perm (joinAvail cs) (r :: joinAvail (cs.set j (cursor_next c)))
  | [], j, c, r, hget, _ => by simp at hget
  | c0 :: rest, 0, c, r, hget, hrow => by
    simp only [List.get?_cons_zero, Option.some.injEq] at hget
    subst hget
    show List.Perm (availRows c0 ++ joinAvail rest)
      (r :: (availRows (cursor_next c0) ++ joinAvail rest))
    rw [availRows_eq_cons hrow]
    simp
  | c0 :: rest, n + 1, c, r, hget, hrow => by
    simp only [List.get?_cons_succ] at hget
    have ih := joinAvail_set rest n hget hrow
    show List.Perm (availRows c0 ++ joinAvail rest)
      (r :: (availRows c0 ++ joinAvail (rest.set n (cursor_next c))))
    exact (List.Perm.append_left _ ih).trans List.perm_middle

theorem availRows_init (s : List GRow) : availRows (GAIASQL.init s) = s := by
  cases s with
  | nil => simp [GAIASQL.init, cursor_next, GAIASQL.close, availRows]
  | cons a rest => simp [GAIASQL.init, cursor_next, availRows]

theorem cursorOK_init {s : List GRow}
    (hs : (s.map GRow.mean_mag).Sorted (· ≤ ·)) : cursorOK (GAIASQL.init s) := by
  refine ⟨?_, by rw [availRows_init]; exact hs⟩
  cases s with
  | nil => intro _; simp [GAIASQL.init, cursor_next, GAIASQL.close]
  | cons a rest => intro hn; simp [GAIASQL.init, cursor_next] at hn

theorem joinAvail_init (streams : List (List GRow)) :
    joinAvail (streams.map GAIASQL.init) = streams.join := by
  induction streams with
  | nil => rfl
  | cons s rest ih =>
    show availRows (GAIASQL.init s) ++ joinAvail (rest.map GAIASQL.init) = s ++ rest.join
    rw [availRows_init, ih]

/-- The selected row has minimum magnitude among buffered rows: its magnitude
is at most that of the incoming best and of every get_row() scanned. -/
theorem pickMinGo_min (cs : List GAIASQL) :
    ∀ (i : ℕ) (best : Option (ℕ × GAIASQL × GRow)) (j : ℕ) (c : GAIASQL) (r : GRow),
      pickMinGo cs i best = some (j, c, r) →
      (∀ (j0 : ℕ) (cb : GAIASQL) (rb : GRow), best = some (j0, cb, rb) →
        r.mean_mag ≤ rb.mean_mag) ∧
      (∀ c' ∈ cs, ∀ r', c'.row = some r' → r.mean_mag ≤ r'.mean_mag) := by
  induction cs with
  | nil =>
    intro i best j c r h
    simp only [pickMinGo] at h
    subst h
    constructor
    · intro j0 cb rb hb
      cases hb
      exact le_refl _
    · intro c' hc'
      exact absurd hc' (List.not_mem_nil c')
  | cons c0 rest ih =>
    intro i best j c r h
    cases hrow : c0.row with
    | none =>
      rw [pickMinGo_none hrow] at h
      obtain ⟨h1, h2⟩ := ih _ _ _ _ _ h
      refine ⟨h1, ?_⟩
      intro c' hc' r' hr'
      rcases List.mem_cons.mp hc' with rfl | hmem
      · rw [hrow] at hr'; cases hr'
      · exact h2 c' hmem r' hr'
    | some r0 =>
      cases best with
      | none =>
        rw [pickMinGo_some_none hrow] at h
        obtain ⟨h1, h2⟩ := ih _ _ _ _ _ h
        have hr0 : r.mean_mag ≤ r0.mean_mag := h1 i c0 r0 rfl
        refine ⟨?_, ?_⟩
        · intro j0 cb rb hb
          cases hb
        intro c' hc' r' hr'
        rcases List.mem_cons.mp hc' with rfl | hmem
        · rw [hrow] at hr'; cases hr'; exact hr0
        · exact h2 c' hmem r' hr'
      | some b =>
        obtain ⟨j0, cb, rb⟩ := b
        rw [pickMinGo_some_some hrow] at h
        by_cases hge : r0.mean_mag ≥ rb.mean_mag
        · rw [if_pos hge] at h
          obtain ⟨h1, h2⟩ := ih _ _ _ _ _ h
          have hrb : r.mean_mag ≤ rb.mean_mag := h1 j0 cb rb rfl
          refine ⟨?_, ?_⟩
          · intro j1 c1 r1 hb
            cases hb
            exact hrb
          · intro c' hc' r' hr'
            rcases List.mem_cons.mp hc' with rfl | hmem
            · rw [hrow] at hr'; cases hr'; exact le_trans hrb hge
            · exact h2 c' hmem r' hr'
        · rw [if_neg hge] at h
          obtain ⟨h1, h2⟩ := ih _ _ _ _ _ h
          have hr0 : r.mean_mag ≤ r0.mean_mag := h1 i c0 r0 rfl
          push_neg at hge
          refine ⟨?_, ?_⟩
          · intro j1 c1 r1 hb
            cases hb
            exact le_trans hr0 (le_of_lt hge)
          · intro c' hc' r' hr'
            rcases List.mem_cons.mp hc' with rfl | hmem
            · rw [hrow] at hr'; cases hr'; exact hr0
            · exact h2 c' hmem r' hr'

theorem pickMin_min {cs : List GAIASQL} {j : ℕ} {c : GAIASQL} {r : GRow}
    (h : pickMin cs = some (j, c, r)) :
    ∀ c' ∈ cs, ∀ r', c'.row = some r' → r.mean_mag ≤ r'.mean_mag :=
  (pickMinGo_min cs 0 none j c r h).2

/-- With sorted cursors, the selected row has minimum magnitude among all
rows any cursor can still deliver. -/
theorem pickMin_le_avail {cs : List GAIASQL} {j : ℕ} {c : GAIASQL} {r : GRow}
    (hOK : ∀ c' ∈ cs, cursorOK c') (h : pickMin cs = some (j, c, r)) :
    ∀ c' ∈ cs, ∀ rr ∈ availRows c', r.mean_mag ≤ rr.mean_mag := by
  intro c' hc' rr hrr
  cases hrow : c'.row with
  | none =>
    have hp := (hOK c' hc').1 hrow
    rw [availRows, hrow, hp] at hrr
    simp at hrr
  | some r' =>
    have hmin : r.mean_mag ≤ r'.mean_mag := pickMin_min h c' hc' r' hrow
    have hs := (hOK c' hc').2
    rw [availRows_eq_cons hrow, List.map_cons, List.sorted_cons] at hs
    rw [availRows_eq_cons hrow] at hrr
    rcases List.mem_cons.mp hrr with rfl | hmem
    · exact hmin
    · exact le_trans hmin (hs.1 _ (List.mem_map_of_mem _ hmem))

/-- The merge-loop invariant: with well-formed cursors and a sorted
accumulator whose magnitudes bound every still-deliverable row from below,
the loop returns a sorted list of at most limit stars whose rows are drawn
without repetition from the accumulator rows and the deliverable rows. -/
theorem gaiaifLoop_spec (fov : FOVState) (limit : ℕ) :
    ∀ (n : ℕ) (cursors : List GAIASQL) (acc res : List StarOut) (cs2 : List GAIASQL),
      cursorsMeasure cursors ≤ n →
      (∀ c ∈ cursors, cursorOK c) →
      ((acc.map fun st => st.row.mean_mag).Sorted (· ≤ ·)) →
      (∀ a ∈ acc, ∀ c ∈ cursors, ∀ rr ∈ availRows c, a.row.mean_mag ≤ rr.mean_mag) →
      acc.length ≤ limit →
      gaiaifLoop fov limit cursors acc = .ok (res, cs2) →
      ((res.map fun st => st.row.mean_mag).Sorted (· ≤ ·)) ∧ res.length ≤ limit ∧
        List.Subperm (res.map StarOut.row) (acc.map StarOut.row ++ joinAvail cursors) := by
  intro n
  induction n using Nat.strong_induction_on with
  | _ n ih =>
  intro cursors acc res cs2 hm hOK hsort hle hlen h
  rw [gaiaifLoop] at h
  by_cases hacc : acc.length < limit
  · rw [if_pos hacc] at h
    split at h
    · simp only [Except.ok.injEq, Prod.mk.injEq] at h
      obtain ⟨h1, h2⟩ := h
      subst h1
      exact ⟨hsort, hlen, (List.sublist_append_left _ _).subperm⟩
    · rename_i j c r hpm
      obtain ⟨hget, hrowc⟩ := pickMin_get hpm
      have hcmem : c ∈ cursors := List.get?_mem hget
      have hdec : cursorsMeasure (cursors.set j (cursor_next c)) < cursorsMeasure cursors := by
        have h3 := availRows_cursor_next hrowc
        exact cursorsMeasure_set_lt _ _ hget (by omega)
      have hmin := pickMin_le_avail hOK hpm
      have hOKn : ∀ c' ∈ cursors.set j (cursor_next c), cursorOK c' := by
        intro c' hc'
        rcases List.mem_or_eq_of_mem_set hc' with hmem | rfl
        · exact hOK _ hmem
        · exact cursorOK_next hrowc (hOK c hcmem)
      have hcover : ∀ c' ∈ cursors.set j (cursor_next c), ∀ rr ∈ availRows c',
          ∃ c'' ∈ cursors, rr ∈ availRows c'' := by
        intro c' hc' rr hrr
        rcases List.mem_or_eq_of_mem_set hc' with hmem | rfl
        · exact ⟨c', hmem, hrr⟩
        · exact ⟨c, hcmem, by rw [availRows_eq_cons hrowc]; exact List.mem_cons_of_mem _ hrr⟩
      have hrmem : r ∈ availRows c := by
        rw [availRows_eq_cons hrowc]
        exact List.mem_cons_self _ _
      have hperm := joinAvail_set cursors j hget hrowc
      split at h
      · exact Except.noConfusion h
      · rename_i inside uvopt hsf
        by_cases hin : inside = true
        · rw [if_pos hin] at h
          cases uvopt with
          | none => exact Except.noConfusion h
          | some uv =>
            have hsortn :
                (((acc ++ [mkStarOut r uv]).map fun st => st.row.mean_mag).Sorted (· ≤ ·)) := by
              rw [List.map_append]
              simp only [List.Sorted] at hsort ⊢
              rw [List.pairwise_append]
              refine ⟨hsort, by simp, ?_⟩
              intro x hx y hy
              simp only [List.map_cons, List.map_nil, List.mem_singleton] at hy
              subst hy
              rw [List.mem_map] at hx
              obtain ⟨a, ha, rfl⟩ := hx
              exact hle a ha c hcmem r hrmem
            have hlen2 : ∀ a ∈ acc ++ [mkStarOut r uv],
                ∀ c' ∈ cursors.set j (cursor_next c),
                ∀ rr ∈ availRows c', a.row.mean_mag ≤ rr.mean_mag := by
              intro a ha c' hc' rr hrr
              obtain ⟨c'', hc'', hrr2⟩ := hcover c' hc' rr hrr
              rcases List.mem_append.mp ha with ha1 | ha2
              · exact hle a ha1 c'' hc'' rr hrr2
              · simp only [List.mem_singleton] at ha2
                subst ha2
                have hmk : (mkStarOut r uv).row = r := rfl
                rw [hmk]
                exact hmin c'' hc'' rr hrr2
            have hlenn : (acc ++ [mkStarOut r uv]).length ≤ limit := by
              simp only [List.length_append, List.length_cons, List.length_nil]
              omega
            obtain ⟨hs1, hs2, hs3⟩ := ih _ (lt_of_lt_of_le hdec hm) _ _ _ _
              (le_refl _) hOKn hsortn hlen2 hlenn h
            refine ⟨hs1, hs2, ?_⟩
            have heq1 : (acc ++ [mkStarOut r uv]).map StarOut.row ++
                joinAvail (cursors.set j (cursor_next c)) =
                acc.map StarOut.row ++
                  (r :: joinAvail (cursors.set j (cursor_next c))) := by
              rw [List.map_append, List.append_assoc]
              rfl
            rw [heq1] at hs3
            exact hs3.trans ((List.Perm.append_left _ hperm.symm).subperm)
        · rw [if_neg hin] at h
          have hlen2 : ∀ a ∈ acc, ∀ c' ∈ cursors.set j (cursor_next c),
              ∀ rr ∈ availRows c', a.row.mean_mag ≤ rr.mean_mag := by
            intro a ha c' hc' rr hrr
            obtain ⟨c'', hc'', hrr2⟩ := hcover c' hc' rr hrr
            exact hle a ha c'' hc'' rr hrr2
          obtain ⟨hs1, hs2, hs3⟩ := ih _ (lt_of_lt_of_le hdec hm) _ _ _ _
            (le_refl _) hOKn hsort hlen2 hlen h
          refine ⟨hs1, hs2, ?_⟩
          have hstep : List.Subperm (joinAvail (cursors.set j (cursor_next c)))
              (joinAvail cursors) :=
            ((List.sublist_cons_self r _).subperm).trans hperm.symm.subperm
          exact hs3.trans ((List.subperm_append_left _).mpr hstep)
  · rw [if_neg hacc] at h
    simp only [Except.ok.injEq, Prod.mk.injEq] at h
    obtain ⟨h1, h2⟩ := h
    subst h1
    exact ⟨hsort, hlen, (List.sublist_append_left _ _).subperm⟩

/-- C3: when every per-box row stream yields rows in ascending magnitude
order, the star list gaiaif returns has non-decreasing mean_mag over every
prefix, holds at most rtn_limit entries, and its rows are a sub-permutation
of the streamed rows, so no row of any stream is consumed more than once
(and the loop, a total function here, terminates on the finite streams). -/
theorem C3_merge_props (fov : FOVState) (streams : List (List GRow)) (limit : ℕ)
    (res : List StarOut) (cs2 : List GAIASQL)
    (hsorted : ∀ s ∈ streams, (s.map GRow.mean_mag).Sorted (· ≤ ·))
    (h : gaiaifMerge fov streams limit = .ok (res, cs2)) :
    ((res.map fun st => st.row.mean_mag).Sorted (· ≤ ·)) ∧ res.length ≤ limit ∧
      List.Subperm (res.map StarOut.row) streams.join := by
  have hOK0 : ∀ c ∈ streams.map GAIASQL.init, cursorOK c := by
    intro c hc
    rw [List.mem_map] at hc
    obtain ⟨s, hs, rfl⟩ := hc
    exact cursorOK_init (hsorted s hs)
  rw [gaiaifMerge] at h
  obtain ⟨h1, h2, h3⟩ := gaiaifLoop_spec fov limit
    (cursorsMeasure (streams.map GAIASQL.init)) (streams.map GAIASQL.init) [] res cs2
    (le_refl _) hOK0 (by simp) (by simp) (by simp) h
  refine ⟨h1, h2, ?_⟩
  rw [List.map_nil, List.nil_append, joinAvail_init] at h3
  exact h3

/-! ### Evaluating concrete runs of the merge loop -/

theorem gaiaifLoop_stop (fov : FOVState) (limit : ℕ) (cursors : List GAIASQL)
    (acc : List StarOut) (h : ¬acc.length < limit) :
    gaiaifLoop fov limit cursors acc = .ok (acc, cursors) := by
  rw [gaiaifLoop, if_neg h]

theorem gaiaifLoop_exhaust (fov : FOVState) (limit : ℕ) (cursors : List GAIASQL)
    (acc : List StarOut) (hacc : acc.length < limit) (h : pickMin cursors = none) :
    gaiaifLoop fov limit cursors acc = .ok (acc, cursors) := by
  rw [gaiaifLoop, if_pos hacc]
  split
  · rfl
  · rename_i j c r hpm
    rw [h] at hpm
    cases hpm

theorem gaiaifLoop_sel (fov : FOVState) (limit : ℕ) (cursors : List GAIASQL)
    (acc : List StarOut) (j : ℕ) (c : GAIASQL) (r : GRow) (uv : Vec3)
    (hacc : acc.length < limit) (hpm : pickMin cursors = some (j, c, r))
    (hsf : star_in_fov fov (.angle (r.ra : ℝ) (r.dec : ℝ))
      (r.parallax.map (fun q => (q : ℝ))) (r.pmra.map (fun q => (q : ℝ)))
      (r.pmdec.map (fun q => (q : ℝ))) = .ok (true, some uv)) :
    gaiaifLoop fov limit cursors acc =
      gaiaifLoop fov limit (cursors.set j (cursor_next c)) (acc ++ [mkStarOut r uv]) := by
  rw [gaiaifLoop, if_pos hacc]
  split
  · rename_i hpm0
    rw [hpm0] at hpm
    cases hpm
  · rename_i j0 c0 r0 hpm0
    rw [hpm0] at hpm
    cases hpm
    rw [hsf]
    rfl

/-- The FOV and rows of the concrete merge runs: a plain RA,Dec box
[0,20]x[0,20] and two rows inside it, in ascending magnitude. -/
def fovBoxM : FOVState :=
  ⟨[(0, 0), (20, 20)], [], [⟨0, 20, 0, 20⟩], none, none, none, .radecbox⟩

def rowM0 : GRow := ⟨5, 10, 10, none, none, none⟩

def rowM1 : GRow := ⟨6, 10, 10, none, none, none⟩

theorem C3_merge_props_witness :
    (∀ s ∈ [[rowM0]], (s.map GRow.mean_mag).Sorted (· ≤ ·)) ∧
    gaiaifMerge fovBoxM [[rowM0]] 0 = .ok ([], [GAIASQL.init [rowM0]]) ∧
    ((([] : List StarOut).map fun st => st.row.mean_mag).Sorted (· ≤ ·) ∧
      ([] : List StarOut).length ≤ 0 ∧
      List.Subperm (([] : List StarOut).map StarOut.row)
        ([[rowM0]] : List (List GRow)).join) := by
  have hs : ∀ s ∈ [[rowM0]], (s.map GRow.mean_mag).Sorted (· ≤ ·) := by
    intro s hs
    simp only [List.mem_singleton] at hs
    subst hs
    simp
  have hrun : gaiaifMerge fovBoxM [[rowM0]] 0 = .ok ([], [GAIASQL.init [rowM0]]) := by
    rw [gaiaifMerge]
    exact gaiaifLoop_stop fovBoxM 0 _ [] (by norm_num)
  exact ⟨hs, hrun, C3_merge_props fovBoxM [[rowM0]] 0 [] [GAIASQL.init [rowM0]] hs hrun⟩

/-! ### C4: cursor closing -/

/-- A cursor's close bookkeeping: close has run exactly once when the
cursor is done and never before, and done coincides with the buffered row
being gone. -/
def closeInv (c : GAIASQL) : Prop :=
  c.closeCount = (if c.done then 1 else 0) ∧ (c.done = true ↔ c.row = none)

theorem closeInv_next {c : GAIASQL} {r : GRow} (h : c.row = some r)
    (hc : closeInv c) : closeInv (cursor_next c) := by
  have hdone : c.done = false := by
    by_contra hd
    rw [Bool.not_eq_false] at hd
    have h3 := hc.2.mp hd
    rw [h] at h3
    cases h3
  cases hp : c.pending with
  | nil =>
    constructor
    · simp [cursor_next, hp, GAIASQL.close, hc.1, hdone, closeInv]
    · simp [cursor_next, hp, GAIASQL.close]
  | cons a rest =>
    constructor
    · simpa [cursor_next, hp, hdone] using hc.1
    · simp [cursor_next, hp, hdone]

theorem closeInv_init (s : List GRow) : closeInv (GAIASQL.init s) := by
  cases s with
  | nil => constructor <;> simp [GAIASQL.init, cursor_next, GAIASQL.close]
  | cons a rest => constructor <;> simp [GAIASQL.init, cursor_next]

theorem pickMinGo_some_ne : ∀ (cs : List GAIASQL) (i : ℕ) (b : ℕ × GAIASQL × GRow),
    pickMinGo cs i (some b) ≠ none
  | [], i, b => by simp [pickMinGo]
  | c :: rest, i, b => by
    cases hrow : c.row with
    | none =>
      rw [pickMinGo_none hrow]
      exact pickMinGo_some_ne rest (i + 1) b
    | some r =>
      obtain ⟨j0, cb, rb⟩ := b
      rw [pickMinGo_some_some hrow]
      by_cases hge : r.mean_mag ≥ rb.mean_mag
      · rw [if_pos hge]
        exact pickMinGo_some_ne rest (i + 1) _
      · rw [if_neg hge]
        exact pickMinGo_some_ne rest (i + 1) _

/-- When the selection scan finds nothing, every cursor's buffered row is
gone. -/
theorem pickMin_none_rows (cs : List GAIASQL) :
    ∀ (i : ℕ), pickMinGo cs i none = none → ∀ c ∈ cs, c.row = none := by
  induction cs with
  | nil =>
    intro i _ c hc
    exact absurd hc (List.not_mem_nil c)
  | cons c0 rest ih =>
    intro i h c hc
    cases hrow : c0.row with
    | none =>
      rw [pickMinGo_none hrow] at h
      rcases List.mem_cons.mp hc with rfl | hmem
      · exact hrow
      · exact ih _ h c hmem
    | some r =>
      rw [pickMinGo_some_none hrow] at h
      exact absurd h (pickMinGo_some_ne rest _ _)

/-- The close bookkeeping through the merge loop: when the loop returns
fewer stars than the limit it ended by exhaustion, and then every cursor is
done and closed exactly once. -/
theorem gaiaifLoop_close (fov : FOVState) (limit : ℕ) :
    ∀ (n : ℕ) (cursors : List GAIASQL) (acc res : List StarOut) (cs2 : List GAIASQL),
      cursorsMeasure cursors ≤ n →
      (∀ c ∈ cursors, closeInv c) →
      gaiaifLoop fov limit cursors acc = .ok (res, cs2) →
      res.length < limit → ∀ c ∈ cs2, c.done = true ∧ c.closeCount = 1 := by
  intro n
  induction n using Nat.strong_induction_on with
  | _ n ih =>
  intro cursors acc res cs2 hm hinv h
  rw [gaiaifLoop] at h
  by_cases hacc : acc.length < limit
  · rw [if_pos hacc] at h
    split at h
    · rename_i hpm
      simp only [Except.ok.injEq, Prod.mk.injEq] at h
      obtain ⟨h1, h2⟩ := h
      subst h1
      subst h2
      intro _ c hc
      have hrow : c.row = none := pickMin_none_rows cursors 0 hpm c hc
      have hd : c.done = true := (hinv c hc).2.mpr hrow
      refine ⟨hd, ?_⟩
      rw [(hinv c hc).1, hd]
      rfl
    · rename_i j c r hpm
      obtain ⟨hget, hrowc⟩ := pickMin_get hpm
      have hcmem : c ∈ cursors := List.get?_mem hget
      have hdec : cursorsMeasure (cursors.set j (cursor_next c)) < cursorsMeasure cursors := by
        have h3 := availRows_cursor_next hrowc
        exact cursorsMeasure_set_lt _ _ hget (by omega)
      have hinvn : ∀ c' ∈ cursors.set j (cursor_next c), closeInv c' := by
        intro c' hc'
        rcases List.mem_or_eq_of_mem_set hc' with hmem | rfl
        · exact hinv _ hmem
        · exact closeInv_next hrowc (hinv c hcmem)
      split at h
      · exact Except.noConfusion h
      · rename_i inside uvopt hsf
        by_cases hin : inside = true
        · rw [if_pos hin] at h
          cases uvopt with
          | none => exact Except.noConfusion h
          | some uv => exact ih _ (lt_of_lt_of_le hdec hm) _ _ _ _ (le_refl _) hinvn h
        · rw [if_neg hin] at h
          exact ih _ (lt_of_lt_of_le hdec hm) _ _ _ _ (le_refl _) hinvn h
  · rw [if_neg hacc] at h
    simp only [Except.ok.injEq, Prod.mk.injEq] at h
    obtain ⟨h1, h2⟩ := h
    subst h1
    intro hlt
    exact absurd hlt hacc

/-- C4 amended: cursors are certain to be released only on the exhaustion
exit.  When the merge returns fewer than rtn_limit stars it ran every
stream dry and every cursor (with its connection) was closed exactly once;
when it stops at the K-limit, cursors whose streams still hold rows are
left open, and a stream error propagates without closing anything. -/
theorem C4_close_on_exhaustion (fov : FOVState) (streams : List (List GRow)) (limit : ℕ)
    (res : List StarOut) (cs2 : List GAIASQL)
    (h : gaiaifMerge fov streams limit = .ok (res, cs2))
    (hlt : res.length < limit) :
    ∀ c ∈ cs2, c.done = true ∧ c.closeCount = 1 := by
  rw [gaiaifMerge] at h
  have hinv : ∀ c ∈ streams.map GAIASQL.init, closeInv c := by
    intro c hc
    rw [List.mem_map] at hc
    obtain ⟨s, _, rfl⟩ := hc
    exact closeInv_init s
  exact gaiaifLoop_close fov limit (cursorsMeasure (streams.map GAIASQL.init))
    (streams.map GAIASQL.init) [] res cs2 (le_refl _) hinv h hlt

theorem C4_close_on_exhaustion_witness :
    gaiaifMerge fovBoxM [[]] 1 =
      .ok ([], [(⟨[], none, true, 1, 0⟩ : GAIASQL)]) ∧
    ((0 : ℕ) < 1) ∧
    (∀ c ∈ [(⟨[], none, true, 1, 0⟩ : GAIASQL)], c.done = true ∧ c.closeCount = 1) := by
  have hrun : gaiaifMerge fovBoxM [[]] 1 =
      .ok ([], [(⟨[], none, true, 1, 0⟩ : GAIASQL)]) := by
    rw [gaiaifMerge]
    exact gaiaifLoop_exhaust fovBoxM 1 _ [] (by norm_num) rfl
  exact ⟨hrun, by norm_num,
    C4_close_on_exhaustion fovBoxM [[]] 1 [] _ hrun (by norm_num)⟩

/-- C4 counterexample: a merge that exits at the K-limit (rtn_limit 1, one
stream of two rows whose first is inside the box) leaves its cursor open:
done is false and close never ran (closeCount 0), so not every exit path
releases the cursor and its connection. -/
theorem C4_counterexample :
    ∃ res, gaiaifMerge fovBoxM [[rowM0, rowM1]] 1 =
      .ok (res, [(⟨[], some rowM1, false, 0, 2⟩ : GAIASQL)]) := by
  have hparse := parse_inertial_ok ((rowM0.ra : ℚ) : ℝ)
    ((rowM0.dec : ℚ) : ℝ) (by norm_num [rowM0]) (by norm_num [rowM0])
    (by norm_num [rowM0]) (by norm_num [rowM0])
  have hin : ([⟨0, 20, 0, 20⟩] : List RadecBox).any
      (inRadecBox ((rowM0.ra : ℚ) : ℝ) ((rowM0.dec : ℚ) : ℝ)) = true := by
    simp only [List.any_cons, List.any_nil, Bool.or_false, inRadecBox, decide_eq_true_eq]
    norm_num [rowM0]
  have hsf : star_in_fov fovBoxM (.angle ((rowM0.ra : ℚ) : ℝ) ((rowM0.dec : ℚ) : ℝ))
      (rowM0.parallax.map (fun q => (q : ℝ))) (rowM0.pmra.map (fun q => (q : ℝ)))
      (rowM0.pmdec.map (fun q => (q : ℝ))) =
      .ok (true, some (radrec 1 (rpd * ((rowM0.ra : ℚ) : ℝ))
        (rpd * ((rowM0.dec : ℚ) : ℝ)))) := by
    show star_in_fov fovBoxM (.angle ((rowM0.ra : ℚ) : ℝ) ((rowM0.dec : ℚ) : ℝ))
      none none none = _
    simp only [star_in_fov, fovBoxM, hparse, hin, if_true]
  refine ⟨[mkStarOut rowM0 (radrec 1 (rpd * ((rowM0.ra : ℚ) : ℝ))
    (rpd * ((rowM0.dec : ℚ) : ℝ)))], ?_⟩
  rw [gaiaifMerge]
  rw [gaiaifLoop_sel fovBoxM 1 (List.map GAIASQL.init [[rowM0, rowM1]]) [] 0
    (GAIASQL.init [rowM0, rowM1]) rowM0 _ (by norm_num) rfl hsf]
  rw [gaiaifLoop_stop fovBoxM 1 _ _ (by norm_num)]
  rfl

end Gaiaif
